import Mathlib

set_option linter.unusedVariables false

/-!
Shallow embedding of the `schemars-zod` crate (src/lib.rs): a converter from
schemars JSON-schema documents to Zod schema source text, plus the schema
merger.  Data types mirror the subset of `schemars::schema` that the crate
reads; fields the crate never reads are omitted.  Machine integers
(`u32` bounds) are modelled as `Nat`; `serde_json::Value` numbers are
modelled as `Int` (the crate only pretty-prints values, never inspects
them).  Rust panics (`Option::unwrap` on `None`) are modelled explicitly by
the `PRes.panic` result.
-/

namespace SchemarsZod

/-- Result of running a piece of Rust code that may panic: either a panic or
a normal return value.  `unwrap()` on `None` produces `PRes.panic`. -/
inductive PRes (α : Type) where
  | panic : PRes α
  | ok (val : α) : PRes α
deriving DecidableEq, Repr

/-- `schemars::schema::InstanceType`. -/
inductive InstanceType where
  | null
  | boolean
  | object
  | array
  | number
  | string
  | integer
deriving DecidableEq, Repr

/-- `schemars::schema::SingleOrVec`. -/
inductive SingleOrVec (α : Type) where
  | single (x : α)
  | vec (xs : List α)
deriving DecidableEq, Repr

/-- `serde_json::Value`.  Floating-point numbers are out of scope; the crate
only serializes values (it never inspects them), so `num` as `Int` covers the
integral cases. -/
inductive Json where
  | null
  | bool (b : Bool)
  | num (n : Int)
  | str (s : String)
  | arr (xs : List Json)
  | obj (kvs : List (String × Json))

/-- `schemars::schema::Metadata` (only `title` is read by the crate). -/
structure Metadata where
  title : Option String
deriving DecidableEq, Repr

mutual
/-- `schemars::schema::Schema`: either a boolean schema or a schema object. -/
inductive Schema where
  | bool (b : Bool)
  | obj (o : SchemaObject)

/-- `schemars::schema::SchemaObject`, restricted to the fields the crate
reads: `metadata`, `instance_type`, `format`, `enum_values`, `const_value`,
`subschemas`, `object`, `array`, `reference`. -/
inductive SchemaObject where
  | mk (metadata : Option Metadata)
       (instance_type : Option (SingleOrVec InstanceType))
       (format : Option String)
       (enum_values : Option (List Json))
       (const_value : Option Json)
       (subschemas : Option SubschemaValidation)
       (object : Option ObjectValidation)
       (array : Option ArrayValidation)
       (reference : Option String)

/-- `schemars::schema::SubschemaValidation` (only `one_of` is read by the
crate; the other subschema fields are never inspected and are omitted). -/
inductive SubschemaValidation where
  | mk (one_of : Option (List Schema))

/-- `schemars::schema::ObjectValidation` (fields read: `properties`,
`additional_properties`).  `properties` is a `BTreeMap<String, Schema>`,
modelled as its ordered entry list. -/
inductive ObjectValidation where
  | mk (properties : List (String × Schema))
       (additional_properties : Option Schema)

/-- `schemars::schema::ArrayValidation` (fields read: `items`, `min_items`,
`max_items`). -/
inductive ArrayValidation where
  | mk (items : Option (SingleOrVec Schema))
       (min_items : Option Nat)
       (max_items : Option Nat)
end

@[simp] def SchemaObject.metadata : SchemaObject → Option Metadata
  | .mk m _ _ _ _ _ _ _ _ => m

@[simp] def SchemaObject.instance_type : SchemaObject → Option (SingleOrVec InstanceType)
  | .mk _ it _ _ _ _ _ _ _ => it

@[simp] def SchemaObject.format : SchemaObject → Option String
  | .mk _ _ f _ _ _ _ _ _ => f

@[simp] def SchemaObject.enum_values : SchemaObject → Option (List Json)
  | .mk _ _ _ ev _ _ _ _ _ => ev

@[simp] def SchemaObject.const_value : SchemaObject → Option Json
  | .mk _ _ _ _ cv _ _ _ _ => cv

@[simp] def SchemaObject.subschemas : SchemaObject → Option SubschemaValidation
  | .mk _ _ _ _ _ sub _ _ _ => sub

@[simp] def SchemaObject.object : SchemaObject → Option ObjectValidation
  | .mk _ _ _ _ _ _ ob _ _ => ob

@[simp] def SchemaObject.array : SchemaObject → Option ArrayValidation
  | .mk _ _ _ _ _ _ _ arr _ => arr

@[simp] def SchemaObject.reference : SchemaObject → Option String
  | .mk _ _ _ _ _ _ _ _ r => r

@[simp] def SubschemaValidation.one_of : SubschemaValidation → Option (List Schema)
  | .mk oo => oo

@[simp] def ObjectValidation.properties : ObjectValidation → List (String × Schema)
  | .mk props _ => props

@[simp] def ObjectValidation.additional_properties : ObjectValidation → Option Schema
  | .mk _ ap => ap

@[simp] def ArrayValidation.items : ArrayValidation → Option (SingleOrVec Schema)
  | .mk its _ _ => its

@[simp] def ArrayValidation.min_items : ArrayValidation → Option Nat
  | .mk _ mn _ => mn

@[simp] def ArrayValidation.max_items : ArrayValidation → Option Nat
  | .mk _ _ mx => mx

/-- `SchemaObject::default()`: every field absent. -/
def SchemaObject.default : SchemaObject :=
  .mk none none none none none none none none none

/-- `Schema::into_object()`.  `Bool(true)` becomes the default object;
`Bool(false)` becomes an object whose `subschemas` carries only a `not`
entry — since the crate never reads any subschema field other than
`one_of`, this is modelled as a `SubschemaValidation` with `one_of` absent. -/
def Schema.intoObject : Schema → SchemaObject
  | .obj o => o
  | .bool true => SchemaObject.default
  | .bool false =>
      .mk none none none none none (some (.mk none)) none none none

/-- `schemars::schema::RootSchema` (fields read: `definitions`, `schema`).
`definitions` is a `BTreeMap<String, Schema>`, modelled as its ordered
entry list. -/
structure RootSchema where
  definitions : List (String × Schema)
  schema : SchemaObject

/-- `RootSchema::default()`. -/
def RootSchema.default : RootSchema := ⟨[], SchemaObject.default⟩

/-- Map insert (`BTreeMap::insert` / `HashMap::insert`) on an association
list: replaces the value in place when the key is present, appends
otherwise.  Lookup-equivalent to the Rust maps. -/
def insertAL {α : Type} : List (String × α) → String → α → List (String × α)
  | [], k, v => [(k, v)]
  | (k', v') :: rest, k, v =>
      if k' = k then (k, v) :: rest else (k', v') :: insertAL rest k v

/-- Map lookup (`get`) on an association list. -/
def lookupAL {α : Type} : List (String × α) → String → Option α
  | [], _ => none
  | (k', v) :: rest, k => if k' = k then some v else lookupAL rest k

/-- One step of `merge_schemas`: fold one input document into the
accumulated merged document. -/
def merge_step (merged : RootSchema) (schema : RootSchema) : RootSchema :=
  match schema.schema.metadata.bind Metadata.title with
  | none => merged
  | some id =>
      let defs := schema.definitions.foldl
        (fun acc kv => insertAL acc kv.1 kv.2) merged.definitions
      { merged with definitions := insertAL defs id (Schema.obj schema.schema) }

/-- `merge_schemas` (src/lib.rs lines 35-51): fold every input document into
`RootSchema::default()`; a document whose root carries no title is skipped
(`continue`) before anything of it is copied. -/
def merge_schemas (schemas : List RootSchema) : RootSchema :=
  schemas.foldl merge_step RootSchema.default

/-- Worker for `rust_replace`: copy the character list, and whenever the
pattern is a prefix of the remaining input (and we are not inside a
previously matched occurrence, tracked by the skip counter), emit the
replacement and skip the matched characters.  Matches are found left to
right and never overlap, exactly as in Rust's `str::replace`. -/
def replaceGo (pat rep : List Char) : List Char → Nat → List Char
  | [], _ => []
  | _ :: rest, n + 1 => replaceGo pat rep rest n
  | c :: rest, 0 =>
      if pat.isPrefixOf (c :: rest) && !pat.isEmpty then
        rep ++ replaceGo pat rep rest (pat.length - 1)
      else c :: replaceGo pat rep rest 0

/-- Rust's `str::replace(pat, rep)`: replace every non-overlapping
occurrence of `pat`, scanning left to right.  (Lean core's `String.replace`
computes the same thing for non-empty patterns but is not
kernel-reducible; an empty pattern is never passed by this crate.) -/
def rust_replace (s pat rep : String) : String :=
  ⟨replaceGo pat.data rep.data s.data 0⟩

/-- Lowercase hex digit, as used by `serde_json`'s string escaper. -/
def hexDigit (n : Nat) : String :=
  match n with
  | 0 => "0" | 1 => "1" | 2 => "2" | 3 => "3" | 4 => "4"
  | 5 => "5" | 6 => "6" | 7 => "7" | 8 => "8" | 9 => "9"
  | 10 => "a" | 11 => "b" | 12 => "c" | 13 => "d" | 14 => "e"
  | _ => "f"

/-- `serde_json` escaping of one character inside a JSON string literal. -/
def jsonEscapeChar (c : Char) : String :=
  if c = Char.ofNat 34 then "\\\""
  else if c = Char.ofNat 92 then "\\\\"
  else if c = Char.ofNat 8 then "\\b"
  else if c = Char.ofNat 9 then "\\t"
  else if c = Char.ofNat 10 then "\\n"
  else if c = Char.ofNat 12 then "\\f"
  else if c = Char.ofNat 13 then "\\r"
  else if c.toNat < 32 then "\\u00" ++ hexDigit (c.toNat / 16) ++ hexDigit (c.toNat % 16)
  else String.singleton c

/-- `serde_json` escaping of a whole string. -/
def jsonEscape (s : String) : String :=
  s.data.foldl (fun acc c => acc ++ jsonEscapeChar c) ""

/-- Two-space indentation at the given depth (`serde_json` pretty printer). -/
def indentStr (depth : Nat) : String :=
  String.join (List.replicate depth "  ")

mutual
/-- `serde_json::to_string_pretty` at a given indentation depth. -/
def jsonPretty (depth : Nat) : Json → String
  | .null => "null"
  | .bool true => "true"
  | .bool false => "false"
  | .num n => toString n
  | .str s => "\"" ++ jsonEscape s ++ "\""
  | .arr [] => "[]"
  | .arr (x :: xs) =>
      "[\n" ++ jsonPrettyItems (depth + 1) (x :: xs) ++ indentStr depth ++ "]"
  | .obj [] => "\x7b\x7d"
  | .obj (kv :: kvs) =>
      "\x7b\n" ++ jsonPrettyFields (depth + 1) (kv :: kvs) ++ indentStr depth ++ "\x7d"
  termination_by j => sizeOf j
  decreasing_by all_goals simp_wf

/-- Comma-separated, indented array elements of the pretty printer. -/
def jsonPrettyItems (depth : Nat) : List Json → String
  | [] => ""
  | [x] => indentStr depth ++ jsonPretty depth x ++ "\n"
  | x :: y :: xs =>
      indentStr depth ++ jsonPretty depth x ++ ",\n" ++ jsonPrettyItems depth (y :: xs)
  termination_by l => sizeOf l
  decreasing_by all_goals simp_wf; all_goals omega

/-- Comma-separated, indented object fields of the pretty printer. -/
def jsonPrettyFields (depth : Nat) : List (String × Json) → String
  | [] => ""
  | [(k, v)] =>
      indentStr depth ++ "\"" ++ jsonEscape k ++ "\": " ++ jsonPretty depth v ++ "\n"
  | (k, v) :: kv :: kvs =>
      indentStr depth ++ "\"" ++ jsonEscape k ++ "\": " ++ jsonPretty depth v ++ ",\n" ++
        jsonPrettyFields depth (kv :: kvs)
  termination_by l => sizeOf l
  decreasing_by all_goals simp_wf; all_goals omega
end

/-- `serde_json::to_string_pretty`. -/
def json_to_string_pretty (v : Json) : String := jsonPretty 0 v

/-- The single-quote character that the crate puts around the discriminator
field name in `z.discriminatedUnion(...)`. -/
def tick : String := String.singleton (Char.ofNat 39)

/-- The per-branch field-name sets built by the first loop of
`all_schemas_share_a_field` (src/lib.rs lines 154-164): a branch whose
`instance_type` is exactly `Single(Object)` contributes the keys of its
(unwrapped) `object.properties`; every other branch contributes the empty
set.  The `unwrap` panics when such a branch has no `object` payload. -/
def branchFieldSets : List Schema → PRes (List (List String))
  | [] => .ok []
  | s :: rest =>
      let so := s.intoObject
      let cur : PRes (List String) :=
        if so.instance_type = some (.single .object) then
          match so.object with
          | none => .panic
          | some ov => .ok (ov.properties.map Prod.fst)
        else .ok []
      match cur with
      | .panic => .panic
      | .ok fs =>
          match branchFieldSets rest with
          | .panic => .panic
          | .ok fss => .ok (fs :: fss)

/-- The `found` set of `all_schemas_share_a_field` (src/lib.rs lines
166-176): the names in the first branch's field-name set that every other
branch's set also contains.  Empty when there are no branches. -/
def sharedCandidates (any_of : List Schema) : PRes (List String) :=
  match branchFieldSets any_of with
  | .panic => .panic
  | .ok [] => .ok []
  | .ok (first_props :: rest) =>
      .ok (first_props.filter (fun p => rest.all (fun props => props.contains p)))

/-- `all_schemas_share_a_field` (src/lib.rs lines 153-186).  The final
`found.iter().next()` iterates a `HashSet` in its internal order; here the
filtered list keeps the first branch's property order, so `head?` models one
particular iteration order (see `all_schemas_share_a_field_ord` for the
order-generic version). -/
def all_schemas_share_a_field (any_of : List Schema) : PRes (Option String) :=
  match branchFieldSets any_of with
  | .panic => .panic
  | .ok results =>
      .ok (match results with
        | [] => none
        | first_props :: rest =>
            let found := first_props.filter (fun p => rest.all (fun props => props.contains p))
            if found.contains "type" then some "type"
            else if found.contains "kind" then some "kind"
            else found.head?)

/-- `all_schemas_share_a_field`, with the `HashSet` iteration order of
`found` made explicit: `ord` reorders the candidate set before
`found.iter().next()` is taken.  The real `HashSet<String>` order depends on
a per-process random hash seed, so `ord` is exactly the information the
input does not determine.  `all_schemas_share_a_field` is this at `ord = id`. -/
def all_schemas_share_a_field_ord (ord : List String → List String)
    (any_of : List Schema) : PRes (Option String) :=
  match branchFieldSets any_of with
  | .panic => .panic
  | .ok results =>
      .ok (match results with
        | [] => none
        | first_props :: rest =>
            let found := first_props.filter (fun p => rest.all (fun props => props.contains p))
            if found.contains "type" then some "type"
            else if found.contains "kind" then some "kind"
            else (ord found).head?)

theorem sizeOf_lt_of_object {s : SchemaObject} {ov : ObjectValidation}
    (h : s.object = some ov) : sizeOf ov < sizeOf s := by
  cases s with
  | mk m it f ev cv sub ob arr r =>
    simp only [SchemaObject.object] at h
    subst h
    simp
    omega

theorem sizeOf_lt_of_array {s : SchemaObject} {av : ArrayValidation}
    (h : s.array = some av) : sizeOf av < sizeOf s := by
  cases s with
  | mk m it f ev cv sub ob arr r =>
    simp only [SchemaObject.array] at h
    subst h
    simp
    omega

theorem sizeOf_lt_of_one_of {s : SchemaObject} {l : List Schema}
    (h : s.subschemas.bind SubschemaValidation.one_of = some l) :
    sizeOf l < sizeOf s := by
  cases s with
  | mk m it f ev cv sub ob arr r =>
    simp only [SchemaObject.subschemas] at h
    cases sub with
    | none => simp [Option.bind] at h
    | some sv =>
      cases sv with
      | mk oo =>
        simp only [Option.bind, SubschemaValidation.one_of] at h
        subst h
        simp
        omega

theorem sizeOf_properties_lt (ov : ObjectValidation) :
    sizeOf ov.properties < sizeOf ov := by
  cases ov with
  | mk props ap =>
    simp [ObjectValidation.properties]
    omega

theorem sizeOf_lt_of_additional {ov : ObjectValidation} {ap : Schema}
    (h : ov.additional_properties = some ap) : sizeOf ap < sizeOf ov := by
  cases ov with
  | mk props a =>
    simp only [ObjectValidation.additional_properties] at h
    subst h
    simp
    omega

theorem sizeOf_lt_of_items {av : ArrayValidation} {its : SingleOrVec Schema}
    (h : av.items = some its) : sizeOf its < sizeOf av := by
  cases av with
  | mk i mn mx =>
    simp only [ArrayValidation.items] at h
    subst h
    simp
    omega

/-- The enum loop of `convert_schema_object_to_zod` (src/lib.rs lines
120-125): `"{value}, "` for each enum value, in order. -/
def enum_values_pieces : List Json → String
  | [] => ""
  | v :: rest => json_to_string_pretty v ++ ", " ++ enum_values_pieces rest

mutual
/-- `convert_schema_object_to_zod(s.clone().into_object())`, the form in
which every recursive call of the crate converts a child `Schema`.  The
boolean-schema case is inlined here (a boolean schema turns into an object
with no `reference`, `enum_values`, `one_of` or `instance_type`, which
converts to `None`); theorem `convert_schema_to_zod_intoObject` below proves
this equal to `convert_schema_object_to_zod ∘ Schema.intoObject`. -/
def convert_schema_to_zod : Schema → PRes (Option String)
  | .bool _ => .ok none
  | .obj o => convert_schema_object_to_zod o
  termination_by s => (sizeOf s, 12, 0)

/-- `convert_schema_object_to_zod` (src/lib.rs lines 102-151): references
first, then enums, then `oneOf` unions, then `instance_type` dispatch. -/
def convert_schema_object_to_zod (schema : SchemaObject) : PRes (Option String) :=
  match schema.reference with
  | some reference =>
      .ok (some ("z.lazy(() => " ++ (rust_replace reference "#/definitions/" "") ++ ")"))
  | none =>
  match schema.enum_values with
  | some enum_values =>
      if enum_values.length = 1 then
        match enum_values with
        | v :: _ => .ok (some ("z.literal(" ++ json_to_string_pretty v ++ ")"))
        | [] => .panic
      else
        .ok (some ("z.enum([" ++ enum_values_pieces enum_values ++ "])"))
  | none =>
  match hsub : schema.subschemas.bind SubschemaValidation.one_of with
  | some one_of =>
      match all_schemas_share_a_field one_of with
      | .panic => .panic
      | .ok shared =>
          let rv := match shared with
            | some field => "z.discriminatedUnion(" ++ tick ++ field ++ tick ++ ", ["
            | none => "z.union(["
          match convert_filtered_branches one_of with
          | .panic => .panic
          | .ok pieces => .ok (some (rv ++ pieces ++ "])"))
  | none =>
  match schema.instance_type with
  | none => .ok none
  | some instance_type => convert_schema_type_to_zod instance_type schema
  termination_by (sizeOf schema, 11, 0)
  decreasing_by
  · exact Prod.Lex.left _ _ (sizeOf_lt_of_one_of hsub)
  · exact Prod.Lex.right _ (Prod.Lex.left _ _ (by omega))

/-- The branch loops of the `oneOf` case (src/lib.rs lines 139-142) and of
the multi-item array case (src/lib.rs lines 260-264): convert each branch,
silently skipping branches that convert to `None`, and concatenate
`"{generated}, "` for the rest. -/
def convert_filtered_branches : List Schema → PRes String
  | [] => .ok ""
  | s :: rest =>
      match convert_schema_to_zod s with
      | .panic => .panic
      | .ok none => convert_filtered_branches rest
      | .ok (some generated) =>
          match convert_filtered_branches rest with
          | .panic => .panic
          | .ok pieces => .ok (generated ++ ", " ++ pieces)
  termination_by l => (sizeOf l, 12, 0)

/-- `convert_schema_type_to_zod` (src/lib.rs lines 188-200). -/
def convert_schema_type_to_zod (instance_type : SingleOrVec InstanceType)
    (schema : SchemaObject) : PRes (Option String) :=
  match instance_type with
  | .single single_type => convert_single_instance_type_schema_to_zod single_type schema
  | .vec multiple_types => convert_union_type_schema_to_zod multiple_types schema
  termination_by (sizeOf schema, 10, 0)
  decreasing_by
  · exact Prod.Lex.right _ (Prod.Lex.left _ _ (by omega))
  · exact Prod.Lex.right _ (Prod.Lex.left _ _ (by omega))

/-- `convert_single_instance_type_schema_to_zod` (src/lib.rs lines 202-227).
The `object` and `array` categories `unwrap()` their payloads: a missing
payload is a panic. -/
def convert_single_instance_type_schema_to_zod (instance_type : InstanceType)
    (schema : SchemaObject) : PRes (Option String) :=
  match schema.const_value with
  | some literal_value =>
      .ok (some ("z.literal(" ++ json_to_string_pretty literal_value ++ ")"))
  | none =>
  match instance_type with
  | .null => .ok (some "z.null()")
  | .boolean => .ok (some "z.boolean()")
  | .object =>
      match hobj : schema.object with
      | none => .panic
      | some object_validation => convert_object_type_to_zod object_validation schema
  | .array =>
      match harr : schema.array with
      | none => .panic
      | some array_validation => convert_array_type_to_zod array_validation schema
  | .number => .ok (some "z.number()")
  | .string =>
      if schema.format = some "date-time" then .ok (some "z.coerce.date()")
      else .ok (some "z.string()")
  | .integer => .ok (some "z.number().int()")
  termination_by (sizeOf schema, 7, 0)
  decreasing_by
  · exact Prod.Lex.left _ _ (sizeOf_lt_of_object hobj)
  · exact Prod.Lex.left _ _ (sizeOf_lt_of_array harr)

/-- `convert_array_type_to_zod` (src/lib.rs lines 229-244). -/
def convert_array_type_to_zod (array_type : ArrayValidation)
    (_schema : SchemaObject) : PRes (Option String) :=
  match hitems : array_type.items with
  | none => .ok none
  | some items =>
      if array_type.min_items.isSome && array_type.min_items == array_type.max_items then
        convert_schema_or_ref_to_zod items "tuple"
      else
        match convert_schema_or_ref_to_zod items "union" with
        | .panic => .panic
        | .ok none => .ok none
        | .ok (some generated) => .ok (some ("z.array(" ++ generated ++ ")"))
  termination_by (sizeOf array_type, 6, 0)
  decreasing_by
  · exact Prod.Lex.left _ _ (sizeOf_lt_of_items hitems)
  · exact Prod.Lex.left _ _ (sizeOf_lt_of_items hitems)

/-- `convert_schema_or_ref_to_zod` (src/lib.rs lines 246-269). -/
def convert_schema_or_ref_to_zod (schema : SingleOrVec Schema)
    (zod_mode : String) : PRes (Option String) :=
  match schema with
  | .single schema_or_ref => convert_schema_to_zod schema_or_ref
  | .vec schemas =>
      if schemas.length = 1 then
        match schemas with
        | s :: _ => convert_schema_to_zod s
        | [] => .panic
      else
        match convert_filtered_branches schemas with
        | .panic => .panic
        | .ok pieces => .ok (some ("z." ++ zod_mode ++ "([" ++ pieces ++ "])"))
  termination_by (sizeOf schema, 5, 0)

/-- `convert_object_type_to_zod` (src/lib.rs lines 271-294). -/
def convert_object_type_to_zod (object_type : ObjectValidation)
    (_schema : SchemaObject) : PRes (Option String) :=
  if object_type.additional_properties.isSome && object_type.properties.isEmpty then
    match hap : object_type.additional_properties with
    | none => .ok none
    | some additional_properties =>
        match convert_schema_to_zod additional_properties with
        | .panic => .panic
        | .ok none => .ok none
        | .ok (some ap) => .ok (some ("z.record(" ++ ap ++ ")"))
  else
    match convert_properties object_type.properties with
    | .panic => .panic
    | .ok none => .ok none
    | .ok (some pieces) => .ok (some ("z.object(\x7b" ++ pieces ++ "\x7d)"))
  termination_by (sizeOf object_type, 6, 0)
  decreasing_by
  · exact Prod.Lex.left _ _ (sizeOf_lt_of_additional hap)
  · exact Prod.Lex.left _ _ (sizeOf_properties_lt object_type)

/-- The property loop of `convert_object_type_to_zod` (src/lib.rs lines
286-289): every property must convert, otherwise the whole object fails. -/
def convert_properties : List (String × Schema) → PRes (Option String)
  | [] => .ok (some "")
  | (property_name, property) :: rest =>
      match convert_schema_to_zod property with
      | .panic => .panic
      | .ok none => .ok none
      | .ok (some property_type) =>
          match convert_properties rest with
          | .panic => .panic
          | .ok none => .ok none
          | .ok (some pieces) =>
              .ok (some (property_name ++ ": " ++ property_type ++ ", " ++ pieces))
  termination_by l => (sizeOf l, 5, 0)

/-- `convert_union_type_schema_to_zod` (src/lib.rs lines 296-311). -/
def convert_union_type_schema_to_zod (instance_types : List InstanceType)
    (schema : SchemaObject) : PRes (Option String) :=
  match convert_union_branches instance_types schema with
  | .panic => .panic
  | .ok none => .ok none
  | .ok (some pieces) => .ok (some ("z.union([" ++ pieces ++ "])"))
  termination_by (sizeOf schema, 9, 0)
  decreasing_by
  exact Prod.Lex.right _ (Prod.Lex.left _ _ (by omega))

/-- The branch loop of `convert_union_type_schema_to_zod` (src/lib.rs lines
303-306): every single-type branch must convert, otherwise the whole node
fails. -/
def convert_union_branches (instance_types : List InstanceType)
    (schema : SchemaObject) : PRes (Option String) :=
  match instance_types with
  | [] => .ok (some "")
  | instance_type :: rest =>
      match convert_single_instance_type_schema_to_zod instance_type schema with
      | .panic => .panic
      | .ok none => .ok none
      | .ok (some generated) =>
          match convert_union_branches rest schema with
          | .panic => .panic
          | .ok none => .ok none
          | .ok (some pieces) => .ok (some (generated ++ ", " ++ pieces))
  termination_by (sizeOf schema, 8, instance_types.length)
  decreasing_by
  · exact Prod.Lex.right _ (Prod.Lex.left _ _ (by omega))
  · exact Prod.Lex.right _ (Prod.Lex.right _ (by simp))
end

/-- `convert_schema_to_zod` is exactly `convert_schema_object_to_zod` after
`Schema::into_object()`: the inlined boolean case agrees with converting the
object that `into_object` produces for a boolean schema. -/
theorem convert_schema_to_zod_intoObject (s : Schema) :
    convert_schema_to_zod s = convert_schema_object_to_zod s.intoObject := by
  cases s with
  | obj o => simp [convert_schema_to_zod, Schema.intoObject]
  | bool b =>
    cases b <;>
      simp [convert_schema_to_zod, convert_schema_object_to_zod, Schema.intoObject,
        SchemaObject.default, SchemaObject.reference, SchemaObject.enum_values,
        SchemaObject.subschemas, SchemaObject.instance_type, SubschemaValidation.one_of,
        Option.bind]

/-- `add_converted_schema` (src/lib.rs lines 87-100): convert one definition
and, when conversion succeeds, insert its two-statement text block. -/
def add_converted_schema (definitions : List (String × String)) (id : String)
    (schema : SchemaObject) : PRes (List (String × String)) :=
  match convert_schema_object_to_zod schema with
  | .panic => .panic
  | .ok none => .ok definitions
  | .ok (some generated) =>
      .ok (insertAL definitions id
        ("export const " ++ id ++ " = " ++ generated ++ ";\n" ++
         "export type " ++ id ++ " = z.infer<typeof " ++ id ++ ">;\n"))

/-- The definition loop of `convert` (src/lib.rs lines 80-82). -/
def convert_loop : List (String × Schema) → List (String × String) →
    PRes (List (String × String))
  | [], definitions => .ok definitions
  | (id, definition) :: rest, definitions =>
      match add_converted_schema definitions id definition.intoObject with
      | .panic => .panic
      | .ok definitions' => convert_loop rest definitions'

/-- `convert` (src/lib.rs lines 77-85): convert every definition of the
document; the root schema itself is ignored.  A panic anywhere (a raised
`unwrap`) makes the whole call panic. -/
def convert (schema : RootSchema) : PRes (List (String × String)) :=
  convert_loop schema.definitions []

/-! ### Case lemmas for the classifier

One lemma per resolution branch of `convert_schema_object_to_zod` and its
helpers, so that later proofs can follow the crate's rule order without
re-unfolding the full definitions. -/

theorem conv_schema_bool (b : Bool) : convert_schema_to_zod (.bool b) = .ok none := by
  simp [convert_schema_to_zod]

theorem conv_schema_obj (o : SchemaObject) :
    convert_schema_to_zod (.obj o) = convert_schema_object_to_zod o := by
  simp [convert_schema_to_zod]

theorem conv_ref {s : SchemaObject} {r : String} (h : s.reference = some r) :
    convert_schema_object_to_zod s =
      .ok (some ("z.lazy(() => " ++ rust_replace r "#/definitions/" "" ++ ")")) := by
  obtain ⟨m, it, f, ev, cv, sub, ob, arr, rr⟩ := s
  simp only [SchemaObject.reference] at h
  subst h
  simp [convert_schema_object_to_zod]

theorem conv_enum_single {s : SchemaObject} {v : Json}
    (h1 : s.reference = none) (h2 : s.enum_values = some [v]) :
    convert_schema_object_to_zod s =
      .ok (some ("z.literal(" ++ json_to_string_pretty v ++ ")")) := by
  obtain ⟨m, it, f, ev, cv, sub, ob, arr, rr⟩ := s
  simp only [SchemaObject.reference] at h1
  simp only [SchemaObject.enum_values] at h2
  subst h1; subst h2
  simp [convert_schema_object_to_zod]

theorem conv_enum_multi {s : SchemaObject} {l : List Json}
    (h1 : s.reference = none) (h2 : s.enum_values = some l)
    (hlen : l.length ≠ 1) :
    convert_schema_object_to_zod s =
      .ok (some ("z.enum([" ++ enum_values_pieces l ++ "])")) := by
  obtain ⟨m, it, f, ev, cv, sub, ob, arr, rr⟩ := s
  simp only [SchemaObject.reference] at h1
  simp only [SchemaObject.enum_values] at h2
  subst h1; subst h2
  simp [convert_schema_object_to_zod, hlen]

theorem conv_one_of {s : SchemaObject} {l : List Schema}
    (h1 : s.reference = none) (h2 : s.enum_values = none)
    (h3 : s.subschemas.bind SubschemaValidation.one_of = some l) :
    convert_schema_object_to_zod s =
      (match all_schemas_share_a_field l with
       | .panic => .panic
       | .ok shared =>
           match convert_filtered_branches l with
           | .panic => .panic
           | .ok pieces =>
               .ok (some ((match shared with
                 | some field => "z.discriminatedUnion(" ++ tick ++ field ++ tick ++ ", ["
                 | none => "z.union([") ++ pieces ++ "])"))) := by
  obtain ⟨m, it, f, ev, cv, sub, ob, arr, rr⟩ := s
  simp only [SchemaObject.reference] at h1
  simp only [SchemaObject.enum_values] at h2
  simp only [SchemaObject.subschemas] at h3
  subst h1; subst h2
  cases sub with
  | none => simp at h3
  | some sv =>
      cases sv with
      | mk oo =>
          simp only [Option.bind, SubschemaValidation.one_of] at h3
          subst h3
          simp [convert_schema_object_to_zod]

theorem conv_no_instance {s : SchemaObject}
    (h1 : s.reference = none) (h2 : s.enum_values = none)
    (h3 : s.subschemas.bind SubschemaValidation.one_of = none)
    (h4 : s.instance_type = none) :
    convert_schema_object_to_zod s = .ok none := by
  obtain ⟨m, it, f, ev, cv, sub, ob, arr, rr⟩ := s
  simp only [SchemaObject.reference] at h1
  simp only [SchemaObject.enum_values] at h2
  simp only [SchemaObject.subschemas] at h3
  simp only [SchemaObject.instance_type] at h4
  subst h1; subst h2; subst h4
  cases sub with
  | none => simp [convert_schema_object_to_zod]
  | some sv =>
      cases sv with
      | mk oo =>
          simp only [Option.bind, SubschemaValidation.one_of] at h3
          subst h3
          simp [convert_schema_object_to_zod]

theorem conv_instance {s : SchemaObject} {it : SingleOrVec InstanceType}
    (h1 : s.reference = none) (h2 : s.enum_values = none)
    (h3 : s.subschemas.bind SubschemaValidation.one_of = none)
    (h4 : s.instance_type = some it) :
    convert_schema_object_to_zod s = convert_schema_type_to_zod it s := by
  obtain ⟨m, it', f, ev, cv, sub, ob, arr, rr⟩ := s
  simp only [SchemaObject.reference] at h1
  simp only [SchemaObject.enum_values] at h2
  simp only [SchemaObject.subschemas] at h3
  simp only [SchemaObject.instance_type] at h4
  subst h1; subst h2; subst h4
  cases sub with
  | none => simp [convert_schema_object_to_zod]
  | some sv =>
      cases sv with
      | mk oo =>
          simp only [Option.bind, SubschemaValidation.one_of] at h3
          subst h3
          simp [convert_schema_object_to_zod]

theorem conv_type_single (t : InstanceType) (s : SchemaObject) :
    convert_schema_type_to_zod (.single t) s =
      convert_single_instance_type_schema_to_zod t s := by
  simp [convert_schema_type_to_zod]

theorem conv_type_vec (ts : List InstanceType) (s : SchemaObject) :
    convert_schema_type_to_zod (.vec ts) s =
      convert_union_type_schema_to_zod ts s := by
  simp [convert_schema_type_to_zod]

theorem conv_single_const {s : SchemaObject} {v : Json} (t : InstanceType)
    (h : s.const_value = some v) :
    convert_single_instance_type_schema_to_zod t s =
      .ok (some ("z.literal(" ++ json_to_string_pretty v ++ ")")) := by
  obtain ⟨m, it, f, ev, cv, sub, ob, arr, rr⟩ := s
  simp only [SchemaObject.const_value] at h
  subst h
  cases t <;> simp [convert_single_instance_type_schema_to_zod]

theorem conv_single_null {s : SchemaObject} (h : s.const_value = none) :
    convert_single_instance_type_schema_to_zod .null s = .ok (some "z.null()") := by
  obtain ⟨m, it, f, ev, cv, sub, ob, arr, rr⟩ := s
  simp only [SchemaObject.const_value] at h
  subst h
  simp [convert_single_instance_type_schema_to_zod]

theorem conv_single_boolean {s : SchemaObject} (h : s.const_value = none) :
    convert_single_instance_type_schema_to_zod .boolean s = .ok (some "z.boolean()") := by
  obtain ⟨m, it, f, ev, cv, sub, ob, arr, rr⟩ := s
  simp only [SchemaObject.const_value] at h
  subst h
  simp [convert_single_instance_type_schema_to_zod]

theorem conv_single_number {s : SchemaObject} (h : s.const_value = none) :
    convert_single_instance_type_schema_to_zod .number s = .ok (some "z.number()") := by
  obtain ⟨m, it, f, ev, cv, sub, ob, arr, rr⟩ := s
  simp only [SchemaObject.const_value] at h
  subst h
  simp [convert_single_instance_type_schema_to_zod]

theorem conv_single_integer {s : SchemaObject} (h : s.const_value = none) :
    convert_single_instance_type_schema_to_zod .integer s =
      .ok (some "z.number().int()") := by
  obtain ⟨m, it, f, ev, cv, sub, ob, arr, rr⟩ := s
  simp only [SchemaObject.const_value] at h
  subst h
  simp [convert_single_instance_type_schema_to_zod]

theorem conv_single_string_date {s : SchemaObject} (h : s.const_value = none)
    (h2 : s.format = some "date-time") :
    convert_single_instance_type_schema_to_zod .string s =
      .ok (some "z.coerce.date()") := by
  obtain ⟨m, it, f, ev, cv, sub, ob, arr, rr⟩ := s
  simp only [SchemaObject.const_value] at h
  simp only [SchemaObject.format] at h2
  subst h; subst h2
  simp [convert_single_instance_type_schema_to_zod]

theorem conv_single_string_plain {s : SchemaObject} (h : s.const_value = none)
    (h2 : ¬ s.format = some "date-time") :
    convert_single_instance_type_schema_to_zod .string s =
      .ok (some "z.string()") := by
  obtain ⟨m, it, f, ev, cv, sub, ob, arr, rr⟩ := s
  simp only [SchemaObject.const_value] at h
  simp only [SchemaObject.format] at h2
  subst h
  simp [convert_single_instance_type_schema_to_zod, h2]

theorem conv_single_object_panic {s : SchemaObject} (h : s.const_value = none)
    (h2 : s.object = none) :
    convert_single_instance_type_schema_to_zod .object s = .panic := by
  obtain ⟨m, it, f, ev, cv, sub, ob, arr, rr⟩ := s
  simp only [SchemaObject.const_value] at h
  simp only [SchemaObject.object] at h2
  subst h; subst h2
  simp [convert_single_instance_type_schema_to_zod]

theorem conv_single_object {s : SchemaObject} {ov : ObjectValidation}
    (h : s.const_value = none) (h2 : s.object = some ov) :
    convert_single_instance_type_schema_to_zod .object s =
      convert_object_type_to_zod ov s := by
  obtain ⟨m, it, f, ev, cv, sub, ob, arr, rr⟩ := s
  simp only [SchemaObject.const_value] at h
  simp only [SchemaObject.object] at h2
  subst h; subst h2
  simp [convert_single_instance_type_schema_to_zod]

theorem conv_single_array_panic {s : SchemaObject} (h : s.const_value = none)
    (h2 : s.array = none) :
    convert_single_instance_type_schema_to_zod .array s = .panic := by
  obtain ⟨m, it, f, ev, cv, sub, ob, arr, rr⟩ := s
  simp only [SchemaObject.const_value] at h
  simp only [SchemaObject.array] at h2
  subst h; subst h2
  simp [convert_single_instance_type_schema_to_zod]

theorem conv_single_array {s : SchemaObject} {av : ArrayValidation}
    (h : s.const_value = none) (h2 : s.array = some av) :
    convert_single_instance_type_schema_to_zod .array s =
      convert_array_type_to_zod av s := by
  obtain ⟨m, it, f, ev, cv, sub, ob, arr, rr⟩ := s
  simp only [SchemaObject.const_value] at h
  simp only [SchemaObject.array] at h2
  subst h; subst h2
  simp [convert_single_instance_type_schema_to_zod]

theorem conv_array_no_items {av : ArrayValidation} (s : SchemaObject)
    (h : av.items = none) :
    convert_array_type_to_zod av s = .ok none := by
  obtain ⟨its, mn, mx⟩ := av
  simp only [ArrayValidation.items] at h
  subst h
  simp [convert_array_type_to_zod]

theorem conv_array_tuple {av : ArrayValidation} {items : SingleOrVec Schema}
    (s : SchemaObject) (h : av.items = some items)
    (hmin : (av.min_items.isSome && av.min_items == av.max_items) = true) :
    convert_array_type_to_zod av s = convert_schema_or_ref_to_zod items "tuple" := by
  obtain ⟨its, mn, mx⟩ := av
  simp only [ArrayValidation.items] at h
  simp only [ArrayValidation.min_items, ArrayValidation.max_items] at hmin
  subst h
  simp [convert_array_type_to_zod, hmin]

theorem conv_array_plain {av : ArrayValidation} {items : SingleOrVec Schema}
    (s : SchemaObject) (h : av.items = some items)
    (hmin : (av.min_items.isSome && av.min_items == av.max_items) = false) :
    convert_array_type_to_zod av s =
      (match convert_schema_or_ref_to_zod items "union" with
       | .panic => .panic
       | .ok none => .ok none
       | .ok (some generated) => .ok (some ("z.array(" ++ generated ++ ")"))) := by
  obtain ⟨its, mn, mx⟩ := av
  simp only [ArrayValidation.items] at h
  simp only [ArrayValidation.min_items, ArrayValidation.max_items] at hmin
  subst h
  simp [convert_array_type_to_zod, hmin]

theorem conv_or_ref_single (sch : Schema) (mode : String) :
    convert_schema_or_ref_to_zod (.single sch) mode = convert_schema_to_zod sch := by
  simp [convert_schema_or_ref_to_zod]

theorem conv_or_ref_one (sch : Schema) (mode : String) :
    convert_schema_or_ref_to_zod (.vec [sch]) mode = convert_schema_to_zod sch := by
  simp [convert_schema_or_ref_to_zod]

theorem conv_or_ref_multi {l : List Schema} (mode : String) (h : l.length ≠ 1) :
    convert_schema_or_ref_to_zod (.vec l) mode =
      (match convert_filtered_branches l with
       | .panic => .panic
       | .ok pieces => .ok (some ("z." ++ mode ++ "([" ++ pieces ++ "])"))) := by
  rw [convert_schema_or_ref_to_zod.eq_def]
  simp [h]

theorem conv_object_record {ov : ObjectValidation} {ap : Schema}
    (s : SchemaObject) (h1 : ov.additional_properties = some ap)
    (h2 : ov.properties = []) :
    convert_object_type_to_zod ov s =
      (match convert_schema_to_zod ap with
       | .panic => .panic
       | .ok none => .ok none
       | .ok (some x) => .ok (some ("z.record(" ++ x ++ ")"))) := by
  obtain ⟨props, addl⟩ := ov
  simp only [ObjectValidation.additional_properties] at h1
  simp only [ObjectValidation.properties] at h2
  subst h1; subst h2
  simp [convert_object_type_to_zod]

theorem conv_object_props {ov : ObjectValidation} (s : SchemaObject)
    (h : (ov.additional_properties.isSome && ov.properties.isEmpty) = false) :
    convert_object_type_to_zod ov s =
      (match convert_properties ov.properties with
       | .panic => .panic
       | .ok none => .ok none
       | .ok (some pieces) => .ok (some ("z.object(\x7b" ++ pieces ++ "\x7d)"))) := by
  obtain ⟨props, addl⟩ := ov
  simp only [ObjectValidation.additional_properties, ObjectValidation.properties] at h ⊢
  simp [convert_object_type_to_zod, h]

theorem conv_union_type (its : List InstanceType) (s : SchemaObject) :
    convert_union_type_schema_to_zod its s =
      (match convert_union_branches its s with
       | .panic => .panic
       | .ok none => .ok none
       | .ok (some pieces) => .ok (some ("z.union([" ++ pieces ++ "])"))) := by
  simp [convert_union_type_schema_to_zod]

theorem convert_properties_nil : convert_properties [] = .ok (some "") := by
  simp [convert_properties]

theorem convert_properties_cons (n : String) (sch : Schema)
    (rest : List (String × Schema)) :
    convert_properties ((n, sch) :: rest) =
      (match convert_schema_to_zod sch with
       | .panic => .panic
       | .ok none => .ok none
       | .ok (some t) =>
           match convert_properties rest with
           | .panic => .panic
           | .ok none => .ok none
           | .ok (some pieces) => .ok (some (n ++ ": " ++ t ++ ", " ++ pieces))) := by
  simp [convert_properties]

theorem convert_filtered_nil : convert_filtered_branches [] = .ok "" := by
  simp [convert_filtered_branches]

theorem convert_filtered_cons (sch : Schema) (rest : List Schema) :
    convert_filtered_branches (sch :: rest) =
      (match convert_schema_to_zod sch with
       | .panic => .panic
       | .ok none => convert_filtered_branches rest
       | .ok (some generated) =>
           match convert_filtered_branches rest with
           | .panic => .panic
           | .ok pieces => .ok (generated ++ ", " ++ pieces)) := by
  simp [convert_filtered_branches]

theorem convert_union_branches_nil (s : SchemaObject) :
    convert_union_branches [] s = .ok (some "") := by
  simp [convert_union_branches]

theorem convert_union_branches_cons (t : InstanceType) (rest : List InstanceType)
    (s : SchemaObject) :
    convert_union_branches (t :: rest) s =
      (match convert_single_instance_type_schema_to_zod t s with
       | .panic => .panic
       | .ok none => .ok none
       | .ok (some generated) =>
           match convert_union_branches rest s with
           | .panic => .panic
           | .ok none => .ok none
           | .ok (some pieces) => .ok (some (generated ++ ", " ++ pieces))) := by
  simp [convert_union_branches]

/-! ### Well-formed schemas

The crate `unwrap`s the `object` payload of a node whose `instance_type`
names the object category (and likewise for arrays).  A node is well formed
when every such payload is present, recursively.  The spec (§3, §7) makes
exactly this a precondition of the input. -/

/-- Does an `instance_type` field name the given category (as the single
category, or as one of the categories of a sequence)? -/
def mentionsType (it : Option (SingleOrVec InstanceType)) (t : InstanceType) : Bool :=
  match it with
  | none => false
  | some (.single t') => t' == t
  | some (.vec ts) => ts.contains t

mutual
/-- Well-formedness of a schema (boolean schemas are always well formed). -/
def wfS : Schema → Bool
  | .bool _ => true
  | .obj o => wfO o
  termination_by s => sizeOf s
  decreasing_by all_goals simp_wf

/-- Well-formedness of a schema object: the `object`/`array` payload is
present whenever `instance_type` names that category, and all child schemas
are well formed. -/
def wfO : SchemaObject → Bool
  | .mk m it f ev cv sub ob arr r =>
      (!mentionsType it .object || ob.isSome) &&
      ((!mentionsType it .array || arr.isSome) &&
       (wfOptSub sub && (wfOptObjV ob && wfOptArrV arr)))
  termination_by s => sizeOf s
  decreasing_by all_goals simp_wf; all_goals omega

def wfOptSub : Option SubschemaValidation → Bool
  | none => true
  | some (.mk none) => true
  | some (.mk (some l)) => wfList l
  termination_by x => sizeOf x
  decreasing_by all_goals simp_wf; all_goals omega

def wfList : List Schema → Bool
  | [] => true
  | s :: rest => wfS s && wfList rest
  termination_by l => sizeOf l
  decreasing_by all_goals simp_wf; all_goals omega

def wfOptObjV : Option ObjectValidation → Bool
  | none => true
  | some (.mk props ap) => wfProps props && wfOptS ap
  termination_by x => sizeOf x
  decreasing_by all_goals simp_wf; all_goals omega

def wfProps : List (String × Schema) → Bool
  | [] => true
  | (_, sch) :: rest => wfS sch && wfProps rest
  termination_by l => sizeOf l
  decreasing_by all_goals simp_wf; all_goals omega

def wfOptS : Option Schema → Bool
  | none => true
  | some sch => wfS sch
  termination_by x => sizeOf x
  decreasing_by all_goals simp_wf

def wfOptArrV : Option ArrayValidation → Bool
  | none => true
  | some (.mk its _ _) => wfOptSV its
  termination_by x => sizeOf x
  decreasing_by all_goals simp_wf; all_goals omega

def wfOptSV : Option (SingleOrVec Schema) → Bool
  | none => true
  | some (.single sch) => wfS sch
  | some (.vec l) => wfList l
  termination_by x => sizeOf x
  decreasing_by all_goals simp_wf; all_goals omega
end

/-- Well-formedness of a whole document: every definition is well formed
(`convert` reads nothing else). -/
def wfRoot (d : RootSchema) : Bool :=
  wfList (d.definitions.map Prod.snd)

/-- Well-formedness of an `items` payload. -/
def wfSV : SingleOrVec Schema → Bool
  | .single sch => wfS sch
  | .vec l => wfList l

theorem wfList_cons {s : Schema} {rest : List Schema} (h : wfList (s :: rest) = true) :
    wfS s = true ∧ wfList rest = true := by
  simp only [wfList, Bool.and_eq_true] at h
  exact h

theorem wfProps_cons {n : String} {sch : Schema} {rest : List (String × Schema)}
    (h : wfProps ((n, sch) :: rest) = true) :
    wfS sch = true ∧ wfProps rest = true := by
  simp only [wfProps, Bool.and_eq_true] at h
  exact h

theorem wfS_obj {o : SchemaObject} (h : wfS (.obj o) = true) : wfO o = true := by
  simp only [wfS] at h
  exact h

theorem wfO_parts {m it f ev cv sub ob arr r}
    (h : wfO (.mk m it f ev cv sub ob arr r) = true) :
    (mentionsType it .object = true → ob.isSome = true) ∧
    (mentionsType it .array = true → arr.isSome = true) ∧
    wfOptSub sub = true ∧ wfOptObjV ob = true ∧ wfOptArrV arr = true := by
  simp only [wfO, Bool.and_eq_true, Bool.or_eq_true, Bool.not_eq_true'] at h
  obtain ⟨h1, h2, h3, h4, h5⟩ := h
  refine ⟨?_, ?_, h3, h4, h5⟩
  · intro hm; rcases h1 with h1 | h1
    · rw [hm] at h1; cases h1
    · exact h1
  · intro hm; rcases h2 with h2 | h2
    · rw [hm] at h2; cases h2
    · exact h2

theorem wfO_oneOf {s : SchemaObject} {l : List Schema}
    (h : wfO s = true) (h2 : s.subschemas.bind SubschemaValidation.one_of = some l) :
    wfList l = true := by
  obtain ⟨m, it, f, ev, cv, sub, ob, arr, r⟩ := s
  obtain ⟨-, -, hsub, -, -⟩ := wfO_parts h
  simp only [SchemaObject.subschemas] at h2
  cases sub with
  | none => simp at h2
  | some sv =>
      cases sv with
      | mk oo =>
          simp only [Option.bind, SubschemaValidation.one_of] at h2
          subst h2
          simpa [wfOptSub] using hsub

theorem wfO_objV {s : SchemaObject} {ov : ObjectValidation}
    (h : wfO s = true) (h2 : s.object = some ov) : wfOptObjV (some ov) = true := by
  obtain ⟨m, it, f, ev, cv, sub, ob, arr, r⟩ := s
  obtain ⟨-, -, -, hob, -⟩ := wfO_parts h
  simp only [SchemaObject.object] at h2
  subst h2
  exact hob

theorem wfO_arrV {s : SchemaObject} {av : ArrayValidation}
    (h : wfO s = true) (h2 : s.array = some av) : wfOptArrV (some av) = true := by
  obtain ⟨m, it, f, ev, cv, sub, ob, arr, r⟩ := s
  obtain ⟨-, -, -, -, harr⟩ := wfO_parts h
  simp only [SchemaObject.array] at h2
  subst h2
  exact harr

theorem wfO_object_present {s : SchemaObject}
    (h : wfO s = true) (hm : mentionsType s.instance_type .object = true) :
    s.object.isSome = true := by
  obtain ⟨m, it, f, ev, cv, sub, ob, arr, r⟩ := s
  obtain ⟨hob, -, -, -, -⟩ := wfO_parts h
  simp only [SchemaObject.instance_type] at hm
  simpa using hob hm

theorem wfO_array_present {s : SchemaObject}
    (h : wfO s = true) (hm : mentionsType s.instance_type .array = true) :
    s.array.isSome = true := by
  obtain ⟨m, it, f, ev, cv, sub, ob, arr, r⟩ := s
  obtain ⟨-, harr, -, -, -⟩ := wfO_parts h
  simp only [SchemaObject.instance_type] at hm
  simpa using harr hm

theorem wfObjV_props {props ap} (h : wfOptObjV (some (.mk props ap)) = true) :
    wfProps props = true ∧ wfOptS ap = true := by
  simp only [wfOptObjV, Bool.and_eq_true] at h
  exact h

theorem wfArrV_items {its mn mx} (h : wfOptArrV (some (.mk its mn mx)) = true) :
    wfOptSV its = true := by
  simpa [wfOptArrV] using h

theorem wfOptSV_some {items : SingleOrVec Schema} (h : wfOptSV (some items) = true) :
    wfSV items = true := by
  cases items <;> simpa [wfOptSV, wfSV] using h

/-- A well-formed branch list never makes `all_schemas_share_a_field`'s
`unwrap` raise: the field-set loop completes. -/
theorem branchFieldSets_ok : ∀ {l : List Schema}, wfList l = true →
    ∃ res, branchFieldSets l = .ok res := by
  intro l
  induction l with
  | nil => intro _; exact ⟨[], rfl⟩
  | cons s rest ih =>
      intro h
      obtain ⟨h1, h2⟩ := wfList_cons h
      obtain ⟨res, hres⟩ := ih h2
      cases s with
      | bool b =>
          cases b <;>
            exact ⟨[] :: res, by
              simp [branchFieldSets, Schema.intoObject, SchemaObject.default, hres]⟩
      | obj o =>
          obtain ⟨m, it, f, ev, cv, sub, ob, arr, r⟩ := o
          by_cases hc : it = some (.single .object)
          · subst hc
            obtain ⟨hobf, -, -, -, -⟩ := wfO_parts (wfS_obj h1)
            obtain ⟨ov, hov⟩ := Option.isSome_iff_exists.mp (hobf (by decide))
            subst hov
            exact ⟨ov.properties.map Prod.fst :: res, by
              simp [branchFieldSets, Schema.intoObject, hres]⟩
          · exact ⟨[] :: res, by
              simp [branchFieldSets, Schema.intoObject, hc, hres]⟩

/-- A well-formed branch list lets discriminator inference complete. -/
theorem all_schemas_ok {l : List Schema} (h : wfList l = true) :
    ∃ r, all_schemas_share_a_field l = .ok r := by
  obtain ⟨res, hres⟩ := branchFieldSets_ok h
  simp only [all_schemas_share_a_field, hres]
  exact ⟨_, rfl⟩

theorem bool_eq_false {b : Bool} (h : ¬ b = true) : b = false := by
  cases b
  · rfl
  · exact absurd rfl h

/-- The central totality lemma: on well-formed input no `unwrap` is ever
reached, so conversion never panics.  Proven by the mutual functional
induction of the conversion engine. -/
theorem wf_no_panic : ∀ a : Schema, wfS a = true → convert_schema_to_zod a ≠ .panic := by
  refine convert_schema_to_zod.induct
    (fun s => wfS s = true → convert_schema_to_zod s ≠ .panic)
    (fun o => wfO o = true → convert_schema_object_to_zod o ≠ .panic)
    (fun it s => wfO s = true → s.instance_type = some it →
      convert_schema_type_to_zod it s ≠ .panic)
    (fun ts s => wfO s = true → (∀ t ∈ ts, mentionsType s.instance_type t = true) →
      convert_union_type_schema_to_zod ts s ≠ .panic ∧
      convert_union_branches ts s ≠ .panic)
    (fun ts s => wfO s = true → (∀ t ∈ ts, mentionsType s.instance_type t = true) →
      convert_union_type_schema_to_zod ts s ≠ .panic ∧
      convert_union_branches ts s ≠ .panic)
    (fun t s => wfO s = true → mentionsType s.instance_type t = true →
      convert_single_instance_type_schema_to_zod t s ≠ .panic)
    (fun av s => wfOptArrV (some av) = true → convert_array_type_to_zod av s ≠ .panic)
    (fun items mode => wfSV items = true → convert_schema_or_ref_to_zod items mode ≠ .panic)
    (fun l => wfList l = true → convert_filtered_branches l ≠ .panic)
    (fun ov s => wfOptObjV (some ov) = true → convert_object_type_to_zod ov s ≠ .panic)
    (fun props => wfProps props = true → convert_properties props ≠ .panic)
    ?_ ?_ ?_ ?_ ?_ ?_ ?_ ?_ ?_ ?_ ?_ ?_ ?_ ?_ ?_ ?_ ?_ ?_ ?_ ?_ ?_ ?_ ?_ ?_ ?_
    ?_ ?_ ?_ ?_ ?_ ?_ ?_ ?_ ?_ ?_ ?_ ?_ ?_ ?_ ?_ ?_ ?_ ?_ ?_ ?_ ?_ ?_ ?_ ?_ ?_
    ?_ ?_ ?_ ?_ ?_ ?_ ?_ ?_ ?_ ?_ ?_
  · intro b _
    rw [conv_schema_bool]
    simp
  · intro o ih hwf
    rw [conv_schema_obj]
    exact ih (wfS_obj hwf)
  · intro s field href hwf
    rw [conv_ref href]
    simp
  · intro s href v tail henum hlen hwf
    have ht : tail = [] := by simpa using hlen
    subst ht
    rw [conv_enum_single href henum]
    simp
  · intro s href henum hlen hwf
    simp at hlen
  · intro s href l henum hlen hwf
    rw [conv_enum_multi href henum hlen]
    simp
  · intro s href henum l hbind hpanic hwf
    obtain ⟨r, hr⟩ := all_schemas_ok (wfO_oneOf hwf hbind)
    rw [hr] at hpanic
    simp at hpanic
  · intro s href henum l hbind shared haasaf hfilt ih9 hwf
    exact absurd hfilt (ih9 (wfO_oneOf hwf hbind))
  · intro s href henum l hbind shared haasaf pieces hfilt ih9 hwf
    rw [conv_one_of href henum hbind]
    simp [haasaf, hfilt]
  · intro s href henum hbind hit hwf
    rw [conv_no_instance href henum hbind hit]
    simp
  · intro s href henum hbind it hit ih3 hwf
    rw [conv_instance href henum hbind hit]
    exact ih3 hwf hit
  · intro s t ih6 hwf hit
    rw [conv_type_single]
    refine ih6 hwf ?_
    rw [hit]
    simp [mentionsType]
  · intro s ts ih4 hwf hit
    rw [conv_type_vec]
    refine (ih4 hwf ?_).1
    intro t ht
    rw [hit]
    simpa [mentionsType] using ht
  · intro ts s hpanic ih5 hwf hmen
    exact absurd hpanic (ih5 hwf hmen).2
  · intro ts s hok ih5 hwf hmen
    refine ⟨?_, ?_⟩
    · rw [conv_union_type]
      simp [hok]
    · rw [hok]
      simp
  · intro ts s g hok ih5 hwf hmen
    refine ⟨?_, ?_⟩
    · rw [conv_union_type]
      simp [hok]
    · rw [hok]
      simp
  · intro s hwf hmen
    refine ⟨?_, ?_⟩
    · rw [conv_union_type]
      simp [convert_union_branches_nil]
    · rw [convert_union_branches_nil]
      simp
  · intro s t rest hpanic ih6 hwf hmen
    exact absurd hpanic (ih6 hwf (hmen t (by simp)))
  · intro s t rest hok ih6 hwf hmen
    refine ⟨?_, ?_⟩
    · rw [conv_union_type, convert_union_branches_cons]
      simp [hok]
    · rw [convert_union_branches_cons]
      simp [hok]
  · intro s t rest g hok hrestpanic ih6 ih5 hwf hmen
    exact absurd hrestpanic
      (ih5 hwf (fun t' ht' => hmen t' (List.mem_cons_of_mem _ ht'))).2
  · intro s t rest g hok hrest ih6 ih5 hwf hmen
    refine ⟨?_, ?_⟩
    · rw [conv_union_type, convert_union_branches_cons]
      simp [hok, hrest]
    · rw [convert_union_branches_cons]
      simp [hok, hrest]
  · intro s t rest g hok g2 hrest ih6 ih5 hwf hmen
    refine ⟨?_, ?_⟩
    · rw [conv_union_type, convert_union_branches_cons]
      simp [hok, hrest]
    · rw [convert_union_branches_cons]
      simp [hok, hrest]
  · intro t s v hconst hwf hmen
    rw [conv_single_const t hconst]
    simp
  · intro s hconst hwf hmen
    rw [conv_single_null hconst]
    simp
  · intro s hconst hwf hmen
    rw [conv_single_boolean hconst]
    simp
  · intro s hconst hobn hwf hmen
    have := wfO_object_present hwf hmen
    rw [hobn] at this
    simp at this
  · intro s hconst ov hob ih10 hwf hmen
    rw [conv_single_object hconst hob]
    exact ih10 (wfO_objV hwf hob)
  · intro s hconst harn hwf hmen
    have := wfO_array_present hwf hmen
    rw [harn] at this
    simp at this
  · intro s hconst av har ih7 hwf hmen
    rw [conv_single_array hconst har]
    exact ih7 (wfO_arrV hwf har)
  · intro s hconst hwf hmen
    rw [conv_single_number hconst]
    simp
  · intro s hconst hfmt hwf hmen
    rw [conv_single_string_date hconst hfmt]
    simp
  · intro s hconst hfmt hwf hmen
    rw [conv_single_string_plain hconst hfmt]
    simp
  · intro s hconst hwf hmen
    rw [conv_single_integer hconst]
    simp
  · intro av s hitems hwf
    rw [conv_array_no_items s hitems]
    simp
  · intro av s items hitems hmin ih8 hwf
    rw [conv_array_tuple s hitems hmin]
    apply ih8
    apply wfOptSV_some
    obtain ⟨its, mn, mx⟩ := av
    simp only [ArrayValidation.items] at hitems
    subst hitems
    exact wfArrV_items hwf
  · intro av s items hitems hmin hpanic ih8 hwf
    refine absurd hpanic (ih8 (wfOptSV_some ?_))
    obtain ⟨its, mn, mx⟩ := av
    simp only [ArrayValidation.items] at hitems
    subst hitems
    exact wfArrV_items hwf
  · intro av s items hitems hmin hconv ih8 hwf
    rw [conv_array_plain s hitems (bool_eq_false hmin)]
    simp [hconv]
  · intro av s items hitems hmin g hconv ih8 hwf
    rw [conv_array_plain s hitems (bool_eq_false hmin)]
    simp [hconv]
  · intro mode sch ih1 hwf
    rw [conv_or_ref_single]
    exact ih1 (by simpa [wfSV] using hwf)
  · intro mode sch tail hlen ih1 hwf
    have ht : tail = [] := by simpa using hlen
    subst ht
    rw [conv_or_ref_one]
    exact ih1 (wfList_cons (by simpa [wfSV] using hwf)).1
  · intro mode hlen hwf
    simp at hlen
  · intro mode schemas hlen hpanic ih9 hwf
    exact absurd hpanic (ih9 (by simpa [wfSV] using hwf))
  · intro mode schemas hlen pieces hfilt ih9 hwf
    rw [conv_or_ref_multi mode hlen]
    simp [hfilt]
  · intro hwf
    rw [convert_filtered_nil]
    simp
  · intro sch rest hpanic ih1 hwf
    exact absurd hpanic (ih1 (wfList_cons hwf).1)
  · intro sch rest hok ih1 ih9 hwf
    rw [convert_filtered_cons]
    simp only [hok]
    exact ih9 (wfList_cons hwf).2
  · intro sch rest g hok hrestpanic ih1 ih9 hwf
    exact absurd hrestpanic (ih9 (wfList_cons hwf).2)
  · intro sch rest g hok pieces hrest ih1 ih9 hwf
    rw [convert_filtered_cons]
    simp [hok, hrest]
  · intro ov s hguard hadd hwf
    rw [hadd] at hguard
    simp at hguard
  · intro ov s hguard ap hadd hpanic ih1 hwf
    obtain ⟨props, ap'⟩ := ov
    simp only [ObjectValidation.additional_properties] at hadd
    subst hadd
    obtain ⟨-, hap⟩ := wfObjV_props hwf
    exact absurd hpanic (ih1 (by simpa [wfOptS] using hap))
  · intro ov s hguard ap hadd hok ih1 hwf
    have hprops : ov.properties = [] := by
      obtain ⟨props, ap'⟩ := ov
      cases props with
      | nil => rfl
      | cons a b => simp at hguard
    rw [conv_object_record s hadd hprops]
    simp [hok]
  · intro ov s hguard ap hadd g hok ih1 hwf
    have hprops : ov.properties = [] := by
      obtain ⟨props, ap'⟩ := ov
      cases props with
      | nil => rfl
      | cons a b => simp at hguard
    rw [conv_object_record s hadd hprops]
    simp [hok]
  · intro ov s hguard hpanic ih11 hwf
    obtain ⟨props, ap⟩ := ov
    obtain ⟨hp, -⟩ := wfObjV_props hwf
    exact absurd hpanic (ih11 hp)
  · intro ov s hguard hconv ih11 hwf
    obtain ⟨props, ap⟩ := ov
    rw [conv_object_props s (bool_eq_false hguard)]
    simp only [ObjectValidation.properties] at hconv ⊢
    simp [hconv]
  · intro ov s hguard g hconv ih11 hwf
    obtain ⟨props, ap⟩ := ov
    rw [conv_object_props s (bool_eq_false hguard)]
    simp only [ObjectValidation.properties] at hconv ⊢
    simp [hconv]
  · intro hwf
    rw [convert_properties_nil]
    simp
  · intro n p rest hpanic ih1 hwf
    exact absurd hpanic (ih1 (wfProps_cons hwf).1)
  · intro n p rest hok ih1 hwf
    rw [convert_properties_cons]
    simp [hok]
  · intro n p rest g hok hrestpanic ih1 ih11 hwf
    exact absurd hrestpanic (ih11 (wfProps_cons hwf).2)
  · intro n p rest g hok hrest ih1 ih11 hwf
    rw [convert_properties_cons]
    simp [hok, hrest]
  · intro n p rest g hok g2 hrest ih1 ih11 hwf
    rw [convert_properties_cons]
    simp [hok, hrest]

theorem csoz_no_panic {o : SchemaObject} (h : wfO o = true) :
    convert_schema_object_to_zod o ≠ .panic := by
  have := wf_no_panic (.obj o) (by simpa [wfS] using h)
  rwa [conv_schema_obj] at this

theorem csoz_ok {o : SchemaObject} (h : wfO o = true) :
    ∃ r, convert_schema_object_to_zod o = .ok r := by
  cases hc : convert_schema_object_to_zod o with
  | panic => exact absurd hc (csoz_no_panic h)
  | ok r => exact ⟨r, rfl⟩

/-- On well-formed branches the filtered branch loop always completes. -/
theorem filtered_ok {l : List Schema} (h : wfList l = true) :
    ∃ pieces, convert_filtered_branches l = .ok pieces := by
  induction l with
  | nil => exact ⟨"", convert_filtered_nil⟩
  | cons s rest ih =>
      obtain ⟨h1, h2⟩ := wfList_cons h
      obtain ⟨pieces, hp⟩ := ih h2
      cases hc : convert_schema_to_zod s with
      | panic => exact absurd hc (wf_no_panic s h1)
      | ok r =>
          cases r with
          | none => exact ⟨pieces, by rw [convert_filtered_cons]; simp [hc, hp]⟩
          | some g => exact ⟨g ++ ", " ++ pieces, by rw [convert_filtered_cons]; simp [hc, hp]⟩

/-- `into_object` preserves well-formedness. -/
theorem wf_intoObject {sch : Schema} (h : wfS sch = true) :
    wfO sch.intoObject = true := by
  cases sch with
  | obj o => simpa [wfS, Schema.intoObject] using h
  | bool b =>
      cases b <;>
        simp [Schema.intoObject, SchemaObject.default, wfO, wfOptSub,
          wfOptObjV, wfOptArrV, mentionsType]

theorem add_converted_ok {acc : List (String × String)} {id : String}
    {sch : SchemaObject} (h : wfO sch = true) :
    ∃ acc2, add_converted_schema acc id sch = .ok acc2 := by
  obtain ⟨r, hr⟩ := csoz_ok h
  cases r with
  | none => exact ⟨acc, by simp [add_converted_schema, hr]⟩
  | some g =>
      exact ⟨insertAL acc id
        ("export const " ++ id ++ " = " ++ g ++ ";\n" ++
         "export type " ++ id ++ " = z.infer<typeof " ++ id ++ ">;\n"),
        by simp [add_converted_schema, hr]⟩

theorem convert_loop_ok : ∀ (defs : List (String × Schema))
    (acc : List (String × String)), wfList (defs.map Prod.snd) = true →
    ∃ m, convert_loop defs acc = .ok m := by
  intro defs
  induction defs with
  | nil => exact fun acc _ => ⟨acc, rfl⟩
  | cons kv rest ih =>
      intro acc h
      obtain ⟨id, sch⟩ := kv
      have h' : wfList (sch :: rest.map Prod.snd) = true := by simpa using h
      obtain ⟨h1, h2⟩ := wfList_cons h'
      obtain ⟨acc2, hacc⟩ := @add_converted_ok acc id sch.intoObject
        (wf_intoObject h1)
      obtain ⟨m, hm⟩ := ih acc2 h2
      exact ⟨m, by simp [convert_loop, hacc, hm]⟩

/-! ### Claim C1 -/

/-- A node whose `instance_type` is the object category but whose `object`
payload is absent: `convert_single_instance_type_schema_to_zod` `unwrap`s
the payload and panics on it. -/
def missPayloadObj : SchemaObject :=
  .mk none (some (.single .object)) none none none none none none none

/-- A document with one definition holding `missPayloadObj`. -/
def missPayloadDoc : RootSchema :=
  ⟨[("Bad", .obj missPayloadObj)], SchemaObject.default⟩

theorem missPayloadObj_eval :
    convert_schema_object_to_zod missPayloadObj = .panic := by
  rw [conv_instance (s := missPayloadObj) rfl rfl rfl rfl, conv_type_single,
    conv_single_object_panic (s := missPayloadObj) rfl rfl]

/-- C1, counterexample: `convert` does not always return a mapping — on a
document holding a definition whose node is object-categorized but carries
no `objectShape` payload, the `unwrap` in
`convert_single_instance_type_schema_to_zod` raises and `convert` panics. -/
theorem convert_panics_on_missing_object_payload :
    convert missPayloadDoc = .panic := by
  simp [convert, missPayloadDoc, convert_loop, add_converted_schema,
    Schema.intoObject, missPayloadObj_eval]

/-- C1, amended: for every document in which each node that declares the
object (resp. array) category carries its `objectShape` (resp. `arrayShape`)
payload, `convert` never raises: it returns a (possibly empty) mapping. -/
theorem convert_total_on_wellformed (d : RootSchema) (h : wfRoot d = true) :
    ∃ m, convert d = .ok m :=
  convert_loop_ok d.definitions [] (by simpa [wfRoot] using h)

/-- A small well-formed document: one number-typed definition. -/
def numberObj : SchemaObject :=
  .mk none (some (.single .number)) none none none none none none none

def smallWfDoc : RootSchema := ⟨[("Num", .obj numberObj)], SchemaObject.default⟩

theorem smallWfDoc_wf : wfRoot smallWfDoc = true := by
  simp [wfRoot, smallWfDoc, numberObj, wfList, wfS, wfO, wfOptSub, wfOptObjV,
    wfOptArrV, mentionsType]

/-- C1 witness: the amended theorem applied to a concrete document. -/
theorem convert_total_on_wellformed_witness :
    wfRoot smallWfDoc = true ∧ ∃ m, convert smallWfDoc = .ok m :=
  ⟨smallWfDoc_wf, convert_total_on_wellformed smallWfDoc smallWfDoc_wf⟩

/-! ### Claim C8 -/

/-- C8: for every node with a `reference` present, conversion succeeds
regardless of any other fields (the reference rule is tried first) and emits
a deferred `z.lazy` expression naming the referenced definition with the
document-local `#/definitions/` path stripped. -/
theorem reference_node_emits_lazy (s : SchemaObject) (r : String)
    (h : s.reference = some r) :
    convert_schema_object_to_zod s =
      .ok (some ("z.lazy(() => " ++ rust_replace r "#/definitions/" "" ++ ")")) :=
  conv_ref h

/-- A reference node that also carries an (ignored) instance type without
payload and an (ignored) empty enum list. -/
def refFooObj : SchemaObject :=
  .mk none (some (.single .object)) none (some []) none none none none
    (some "#/definitions/Foo")

/-- C8 witness: the reference theorem applied at `#/definitions/Foo`,
yielding exactly `Foo`. -/
theorem reference_node_emits_lazy_witness :
    refFooObj.reference = some "#/definitions/Foo" ∧
    convert_schema_object_to_zod refFooObj = .ok (some "z.lazy(() => Foo)") :=
  ⟨rfl, by rw [reference_node_emits_lazy refFooObj _ rfl]; decide⟩

/-! ### Claim C9 -/

/-- C9: a node whose `enumValues` is present but empty (and that is not a
reference, so that the enum rule is reached) still converts successfully,
to an enumerated-alternatives expression with no alternatives,
`z.enum([])` — absence is not returned and no later rule is consulted. -/
theorem empty_enum_emits_empty_alternatives (s : SchemaObject)
    (h1 : s.reference = none) (h2 : s.enum_values = some []) :
    convert_schema_object_to_zod s = .ok (some "z.enum([])") := by
  rw [conv_enum_multi h1 h2 (by simp)]
  rfl

/-- An empty-enum node that also carries a `oneOf` and an instance type, to
show the enum rule preempts them. -/
def emptyEnumObj : SchemaObject :=
  .mk none (some (.single .number)) none (some []) none
    (some (.mk (some []))) none none none

/-- C9 witness: the empty-enum theorem applied to a concrete node. -/
theorem empty_enum_emits_empty_alternatives_witness :
    emptyEnumObj.reference = none ∧ emptyEnumObj.enum_values = some [] ∧
    convert_schema_object_to_zod emptyEnumObj = .ok (some "z.enum([])") :=
  ⟨rfl, rfl, empty_enum_emits_empty_alternatives emptyEnumObj rfl rfl⟩

/-! ### Merge lemmas -/

/-- The root title of a document, as `merge_schemas` reads it. -/
def titleOf (d : RootSchema) : Option String :=
  d.schema.metadata.bind Metadata.title

/-- Lookup where the last binding of a key wins — the net effect of folding
`insert` over an entry list. -/
def lookupLastAL {α : Type} (l : List (String × α)) (k : String) : Option α :=
  lookupAL l.reverse k

/-- The keys a document contributes to the merged table: nothing when the
root is untitled, otherwise its definition keys plus the root title. -/
def contributedKeys (d : RootSchema) : List String :=
  match titleOf d with
  | none => []
  | some t => d.definitions.map Prod.fst ++ [t]

/-- What a single document's merge step binds a key to, if anything: the
root schema under the title, else the last matching definition entry. -/
def contribLookup (d : RootSchema) (k : String) : Option Schema :=
  match titleOf d with
  | none => none
  | some t =>
      if k = t then some (.obj d.schema)
      else lookupLastAL d.definitions k

theorem lookupAL_insert {α : Type} (l : List (String × α)) (k k' : String) (v : α) :
    lookupAL (insertAL l k v) k' = if k' = k then some v else lookupAL l k' := by
  induction l with
  | nil =>
      by_cases h : k' = k
      · subst h; simp [insertAL, lookupAL]
      · simp [insertAL, lookupAL, h, show ¬(k = k') from fun hh => h hh.symm]
  | cons kv rest ih =>
      obtain ⟨k0, v0⟩ := kv
      by_cases h0 : k0 = k
      · subst h0
        by_cases h1 : k' = k0
        · subst h1; simp [insertAL, lookupAL]
        · simp [insertAL, lookupAL, h1, show ¬(k0 = k') from fun hh => h1 hh.symm]
      · by_cases h1 : k0 = k'
        · subst h1
          simp [insertAL, lookupAL, h0, show ¬(k0 = k) from h0,
            show ¬(k0 = k) from h0]
        · simp [insertAL, lookupAL, h0, h1, ih]

theorem lookupAL_append {α : Type} (l1 l2 : List (String × α)) (k : String) :
    lookupAL (l1 ++ l2) k =
      (match lookupAL l1 k with
       | some v => some v
       | none => lookupAL l2 k) := by
  induction l1 with
  | nil => simp [lookupAL]
  | cons kv rest ih =>
      obtain ⟨k0, v0⟩ := kv
      by_cases h0 : k0 = k <;> simp [lookupAL, h0, ih]

theorem foldl_insert_lookup {α : Type} :
    ∀ (defs base : List (String × α)) (k : String),
    lookupAL (defs.foldl (fun acc kv => insertAL acc kv.1 kv.2) base) k =
      (match lookupLastAL defs k with
       | some v => some v
       | none => lookupAL base k) := by
  intro defs
  induction defs with
  | nil => intro base k; simp [lookupLastAL, lookupAL]
  | cons kv rest ih =>
      intro base k
      obtain ⟨k0, v0⟩ := kv
      have hlast : lookupLastAL ((k0, v0) :: rest) k =
          (match lookupLastAL rest k with
           | some v => some v
           | none => if k = k0 then some v0 else none) := by
        simp only [lookupLastAL, List.reverse_cons, lookupAL_append]
        cases lookupAL rest.reverse k with
        | some v => rfl
        | none =>
            by_cases h0 : k = k0
            · subst h0; simp [lookupAL]
            · simp [lookupAL, h0, show ¬(k0 = k) from fun hh => h0 hh.symm]
      rw [List.foldl_cons, ih, hlast, lookupAL_insert]
      cases lookupLastAL rest k with
      | some v => rfl
      | none => by_cases h0 : k = k0 <;> simp [h0]

theorem merge_step_lookup (m d : RootSchema) (k : String) :
    lookupAL (merge_step m d).definitions k =
      (match contribLookup d k with
       | some v => some v
       | none => lookupAL m.definitions k) := by
  unfold contribLookup titleOf merge_step
  cases h : d.schema.metadata.bind Metadata.title with
  | none => rfl
  | some t =>
      by_cases hk : k = t
      · simp [hk, lookupAL_insert]
      · simp only [lookupAL_insert, foldl_insert_lookup, if_neg hk]
        cases lookupLastAL d.definitions k <;> rfl

theorem lookupAL_eq_none {α : Type} :
    ∀ (l : List (String × α)) (k : String),
    lookupAL l k = none ↔ k ∉ l.map Prod.fst := by
  intro l
  induction l with
  | nil => intro k; simp [lookupAL]
  | cons kv rest ih =>
      intro k
      obtain ⟨k0, v0⟩ := kv
      by_cases h0 : k0 = k
      · subst h0; simp [lookupAL]
      · simp [lookupAL, h0, ih, show ¬(k = k0) from fun hh => h0 hh.symm]

theorem contrib_some_mem {d : RootSchema} {k : String} {v : Schema}
    (h : contribLookup d k = some v) : k ∈ contributedKeys d := by
  unfold contribLookup at h
  unfold contributedKeys
  cases ht : titleOf d with
  | none => rw [ht] at h; simp at h
  | some t =>
      rw [ht] at h
      simp only [] at h
      by_cases hk : k = t
      · simp [hk]
      · simp only [if_neg hk] at h
        have hne : ¬ lookupAL d.definitions.reverse k = none := by
          intro hnone
          rw [show lookupLastAL d.definitions k =
                lookupAL d.definitions.reverse k from rfl, hnone] at h
          cases h
        have hmem := not_not.mp (fun hn => hne ((lookupAL_eq_none _ _).mpr hn))
        simp only [List.map_reverse, List.mem_reverse] at hmem
        simp [hmem]

/-! ### Claim C3 -/

/-- A document whose root carries no title but whose definitions sub-table
is non-empty. -/
def untitledDoc : RootSchema := ⟨[("X", .bool true)], SchemaObject.default⟩

/-- C3, counterexample: an untitled document's own definitions sub-table is
NOT merged — `merge_schemas` skips the whole document, leaving the output
table empty although the input document defines `X`. -/
theorem merge_drops_untitled_definitions :
    lookupAL untitledDoc.definitions "X" = some (.bool true) ∧
    (merge_schemas [untitledDoc]).definitions = [] :=
  ⟨rfl, rfl⟩

/-- C3, amended: a document whose root carries no title contributes nothing
at all to the merge — neither a root definition nor its definitions
sub-table; the merge result is as if the document were absent. -/
theorem merge_skips_untitled_entirely (xs ys : List RootSchema) (d : RootSchema)
    (h : titleOf d = none) :
    merge_schemas (xs ++ d :: ys) = merge_schemas (xs ++ ys) := by
  have h' : d.schema.metadata.bind Metadata.title = none := h
  have hstep : ∀ m, merge_step m d = m := by
    intro m
    unfold merge_step
    simp only [h']
  simp [merge_schemas, List.foldl_append, hstep]

/-- C3 witness: the amended theorem applied to the concrete untitled
document. -/
theorem merge_skips_untitled_entirely_witness :
    titleOf untitledDoc = none ∧
    merge_schemas ([] ++ untitledDoc :: []) = merge_schemas ([] ++ []) :=
  ⟨rfl, merge_skips_untitled_entirely [] [] untitledDoc rfl⟩

/-! ### Claim C4 -/

/-- Two documents with disjoint titles but a shared definition key `X`,
bound to different schemas. -/
def docA : RootSchema :=
  ⟨[("X", .bool true)], .mk (some ⟨some "A"⟩) none none none none none none none none⟩

def docB : RootSchema :=
  ⟨[("X", .bool false)], .mk (some ⟨some "B"⟩) none none none none none none none none⟩

/-- C4, counterexample: order sensitivity is not confined to title
collisions.  `docA` and `docB` have disjoint titles (`A` and `B`), yet the
two merge orders disagree on the shared definition key `X`. -/
theorem merge_disjoint_titles_order_sensitive :
    titleOf docA = some "A" ∧ titleOf docB = some "B" ∧
    lookupAL (merge_schemas [docA, docB]).definitions "X" = some (.bool false) ∧
    lookupAL (merge_schemas [docB, docA]).definitions "X" = some (.bool true) ∧
    lookupAL (merge_schemas [docA, docB]).definitions "X" ≠
      lookupAL (merge_schemas [docB, docA]).definitions "X" := by
  refine ⟨rfl, rfl, rfl, rfl, ?_⟩
  intro h
  rw [show lookupAL (merge_schemas [docA, docB]).definitions "X" =
        some (.bool false) from rfl,
      show lookupAL (merge_schemas [docB, docA]).definitions "X" =
        some (.bool true) from rfl] at h
  cases h

/-- C4, amended: merge of two documents is order-insensitive when the
documents' contributed key sets (definition keys plus root title) are
disjoint — disjoint titles alone are not enough; and where the two root
titles collide, the later document in the sequence wins. -/
theorem merge_two_docs_behavior :
    (∀ A B : RootSchema,
       (∀ k, ¬(k ∈ contributedKeys A ∧ k ∈ contributedKeys B)) →
       ∀ k, lookupAL (merge_schemas [A, B]).definitions k =
            lookupAL (merge_schemas [B, A]).definitions k) ∧
    (∀ (A B : RootSchema) (t : String), titleOf A = some t → titleOf B = some t →
       lookupAL (merge_schemas [A, B]).definitions t = some (.obj B.schema)) := by
  have hmerge : ∀ (A B : RootSchema) (k : String),
      lookupAL (merge_schemas [A, B]).definitions k =
        (match contribLookup B k with
         | some v => some v
         | none =>
             match contribLookup A k with
             | some v => some v
             | none => none) := by
    intro A B k
    show lookupAL (merge_step (merge_step RootSchema.default A) B).definitions k = _
    rw [merge_step_lookup, merge_step_lookup]
    cases contribLookup B k with
    | some v => rfl
    | none =>
        cases contribLookup A k with
        | some v => rfl
        | none => rfl
  constructor
  · intro A B hdisj k
    rw [hmerge, hmerge]
    cases hb : contribLookup B k with
    | some v =>
        cases ha : contribLookup A k with
        | some w => exact absurd ⟨contrib_some_mem ha, contrib_some_mem hb⟩ (hdisj k)
        | none => rfl
    | none =>
        cases ha : contribLookup A k with
        | some w => rfl
        | none => rfl
  · intro A B t hA hB
    rw [hmerge]
    have : contribLookup B t = some (.obj B.schema) := by
      unfold contribLookup
      rw [hB]
      simp
    rw [this]

/-- C4 witness: the amended theorem applied to concrete documents — the
fully disjoint pair for commutation, and a shared-title pair for
last-writer-wins. -/
theorem merge_two_docs_behavior_witness :
    (∀ k, lookupAL (merge_schemas [untitledDoc, docB]).definitions k =
          lookupAL (merge_schemas [docB, untitledDoc]).definitions k) ∧
    lookupAL (merge_schemas [docA, ⟨[], docA.schema⟩]).definitions "A" =
      some (.obj docA.schema) := by
  constructor
  · exact merge_two_docs_behavior.1 untitledDoc docB
      (by
        intro k hk
        simp [contributedKeys, titleOf, untitledDoc, SchemaObject.default,
          Option.bind] at hk)
  · exact merge_two_docs_behavior.2 docA ⟨[], docA.schema⟩ "A" rfl rfl

/-! ### Discriminator lemmas (claims C5, C6) -/

/-- The field-name set one union branch contributes to discriminator
inference, as the spec describes it: its declared property names when the
branch's `instanceType` is exactly the single object category, the empty
set otherwise. -/
def specBranchFields (b : Schema) : List String :=
  match b.intoObject.instance_type, b.intoObject.object with
  | some (.single .object), some ov => ov.properties.map Prod.fst
  | _, _ => []

/-- The payload precondition of `all_schemas_share_a_field`: every
single-object-typed branch carries its `object` payload (otherwise the
`unwrap` panics). -/
def branchesPayloadOk (l : List Schema) : Bool :=
  l.all (fun b =>
    if b.intoObject.instance_type = some (.single .object)
    then b.intoObject.object.isSome else true)

theorem specBranchFields_eq_nil {b : Schema}
    (hc : ¬ b.intoObject.instance_type = some (.single .object)) :
    specBranchFields b = [] := by
  unfold specBranchFields
  split
  · next h1 h2 => exact absurd h1 hc
  · rfl

theorem branchFieldSets_cons_obj {b : Schema} {ov : ObjectValidation}
    (hc : b.intoObject.instance_type = some (.single .object))
    (hov : b.intoObject.object = some ov) (rest : List Schema) :
    branchFieldSets (b :: rest) =
      (match branchFieldSets rest with
       | .panic => .panic
       | .ok fss => .ok (ov.properties.map Prod.fst :: fss)) := by
  cases b with
  | obj o =>
      obtain ⟨m, it, f, ev, cv, sub, ob, arr, r⟩ := o
      simp only [Schema.intoObject, SchemaObject.instance_type] at hc
      simp only [Schema.intoObject, SchemaObject.object] at hov
      subst hc
      subst hov
      simp [branchFieldSets, Schema.intoObject]
  | bool bb =>
      cases bb <;>
        simp [Schema.intoObject, SchemaObject.default] at hc

theorem branchFieldSets_cons_panic {b : Schema}
    (hc : b.intoObject.instance_type = some (.single .object))
    (hov : b.intoObject.object = none) (rest : List Schema) :
    branchFieldSets (b :: rest) = .panic := by
  cases b with
  | obj o =>
      obtain ⟨m, it, f, ev, cv, sub, ob, arr, r⟩ := o
      simp only [Schema.intoObject, SchemaObject.instance_type] at hc
      simp only [Schema.intoObject, SchemaObject.object] at hov
      subst hc
      subst hov
      simp [branchFieldSets, Schema.intoObject]
  | bool bb =>
      cases bb <;>
        simp [Schema.intoObject, SchemaObject.default] at hc

theorem branchFieldSets_cons_other {b : Schema}
    (hc : ¬ b.intoObject.instance_type = some (.single .object))
    (rest : List Schema) :
    branchFieldSets (b :: rest) =
      (match branchFieldSets rest with
       | .panic => .panic
       | .ok fss => .ok ([] :: fss)) := by
  cases b with
  | obj o =>
      obtain ⟨m, it, f, ev, cv, sub, ob, arr, r⟩ := o
      simp only [Schema.intoObject, SchemaObject.instance_type] at hc
      simp [branchFieldSets, Schema.intoObject, hc]
  | bool bb =>
      cases bb <;>
        simp [branchFieldSets, Schema.intoObject, SchemaObject.default]

theorem branchFieldSets_spec : ∀ {l : List Schema},
    branchesPayloadOk l = true → branchFieldSets l = .ok (l.map specBranchFields) := by
  intro l
  induction l with
  | nil => intro _; rfl
  | cons b rest ih =>
      intro h
      simp only [branchesPayloadOk, List.all_cons, Bool.and_eq_true] at h
      obtain ⟨h1, h2⟩ := h
      have h2' : branchesPayloadOk rest = true := h2
      by_cases hc : b.intoObject.instance_type = some (.single .object)
      · rw [if_pos hc] at h1
        obtain ⟨ov, hov⟩ := Option.isSome_iff_exists.mp h1
        have hspec : specBranchFields b = ov.properties.map Prod.fst := by
          unfold specBranchFields
          rw [hc, hov]
        rw [branchFieldSets_cons_obj hc hov rest, ih h2']
        simp [hspec]
      · have hspec := specBranchFields_eq_nil hc
        rw [branchFieldSets_cons_other hc rest, ih h2']
        simp [hspec]

theorem branchFieldSets_shape {b : Schema} {rest : List Schema}
    {res : List (List String)} (h : branchFieldSets (b :: rest) = .ok res) :
    ∃ r0 rs, res = r0 :: rs ∧ branchFieldSets rest = .ok rs := by
  by_cases hc : b.intoObject.instance_type = some (.single .object)
  · cases hov : b.intoObject.object with
    | none => rw [branchFieldSets_cons_panic hc hov rest] at h; cases h
    | some ov =>
        rw [branchFieldSets_cons_obj hc hov rest] at h
        cases hr : branchFieldSets rest with
        | panic => rw [hr] at h; simp at h
        | ok fss =>
            rw [hr] at h
            simp only [] at h
            injection h with h2
            exact ⟨_, fss, h2.symm, rfl⟩
  · rw [branchFieldSets_cons_other hc rest] at h
    cases hr : branchFieldSets rest with
    | panic => rw [hr] at h; simp at h
    | ok fss =>
        rw [hr] at h
        simp only [] at h
        injection h with h2
        exact ⟨_, fss, h2.symm, rfl⟩

theorem sharedCandidates_spec {b : Schema} {rest : List Schema}
    (h : branchesPayloadOk (b :: rest) = true) :
    sharedCandidates (b :: rest) = .ok ((specBranchFields b).filter
      (fun p => (rest.map specBranchFields).all (fun props => props.contains p))) := by
  have hbfs := branchFieldSets_spec h
  simp only [List.map_cons] at hbfs
  simp only [sharedCandidates, hbfs]

/-! ### Claim C6 -/

/-- Two object-typed union branches sharing the property name `type`. -/
def typedBranchA : Schema :=
  .obj (.mk none (some (.single .object)) none none none none
    (some (.mk [("type", .obj numberObj), ("x", .obj numberObj)] none)) none none)

def typedBranchB : Schema :=
  .obj (.mk none (some (.single .object)) none none none none
    (some (.mk [("type", .obj numberObj), ("y", .obj numberObj)] none)) none none)

/-- C6: for branch lists whose single-object-typed branches carry their
payloads, the discriminator candidate set is exactly the set of property
names present in the first branch's field-name set and in every other
branch's field-name set, where only single-object-category branches
contribute their declared property names and every other branch contributes
the empty set; and for an empty branch sequence the result is absent. -/
theorem discriminator_candidate_set :
    (∀ (b : Schema) (rest : List Schema), branchesPayloadOk (b :: rest) = true →
      ∃ found, sharedCandidates (b :: rest) = .ok found ∧
        ∀ p : String, p ∈ found ↔
          (p ∈ specBranchFields b ∧ ∀ b' ∈ rest, p ∈ specBranchFields b')) ∧
    all_schemas_share_a_field [] = .ok none := by
  constructor
  · intro b rest h
    refine ⟨_, sharedCandidates_spec h, ?_⟩
    intro p
    simp only [List.mem_filter, List.all_eq_true, List.mem_map]
    constructor
    · rintro ⟨hp, hall⟩
      refine ⟨hp, fun b' hb' => ?_⟩
      have := hall (specBranchFields b') ⟨b', hb', rfl⟩
      simpa using this
    · rintro ⟨hp, hall⟩
      refine ⟨hp, ?_⟩
      rintro props ⟨b', hb', rfl⟩
      simp [hall b' hb']
  · rfl

/-- C6 witness: the candidate-set theorem applied to two concrete branches
sharing the field `type`. -/
theorem discriminator_candidate_set_witness :
    branchesPayloadOk [typedBranchA, typedBranchB] = true ∧
    (∃ found, sharedCandidates [typedBranchA, typedBranchB] = .ok found ∧
      ∀ p : String, p ∈ found ↔
        (p ∈ specBranchFields typedBranchA ∧
         ∀ b' ∈ [typedBranchB], p ∈ specBranchFields b')) :=
  ⟨by decide, discriminator_candidate_set.1 typedBranchA [typedBranchB] (by decide)⟩

/-! ### Claim C5 -/

/-- An object-typed branch declaring the two properties `a` and `b`
(neither named `type` nor `kind`). -/
def twoFieldBranch : Schema :=
  .obj (.mk none (some (.single .object)) none none none none
    (some (.mk [("a", .bool true), ("b", .bool true)] none)) none none)

/-- C5, counterexample: the remaining-candidate choice is not determined by
the input.  `found.iter().next()` reads a `HashSet` in its internal,
randomly seeded order; modelling that order explicitly, two orders that are
both permutations of the same candidate set `{a, b}` make the function
return `a` and `b` respectively on the same input, so two runs of the
program need not agree. -/
theorem discriminator_choice_depends_on_set_order :
    all_schemas_share_a_field_ord id [twoFieldBranch, twoFieldBranch] =
      .ok (some "a") ∧
    all_schemas_share_a_field_ord List.reverse [twoFieldBranch, twoFieldBranch] =
      .ok (some "b") ∧
    (∀ l : List String, (List.reverse l).Perm l) ∧
    PRes.ok (α := Option String) (some "a") ≠ .ok (some "b") :=
  ⟨by decide, by decide, fun l => List.reverse_perm l, by decide⟩

/-- C5, amended: discriminator inference is a function of the branch list
TOGETHER WITH the unspecified `HashSet` iteration order.  The preference for
`type`, then `kind`, and the absent result when no candidates exist, hold
for every iteration order; but the remaining-candidate case only guarantees
that some member of the candidate set is chosen — which member depends on
the set order, which a fresh run need not reproduce.
`all_schemas_share_a_field` itself is the instance at the identity order. -/
theorem discriminator_ord_behavior :
    (∀ bs : List Schema,
      all_schemas_share_a_field bs = all_schemas_share_a_field_ord id bs) ∧
    (∀ (f : List String → List String), (∀ l : List String, (f l).Perm l) →
      ∀ (bs : List Schema) (found : List String),
      sharedCandidates bs = .ok found →
        ("type" ∈ found → all_schemas_share_a_field_ord f bs = .ok (some "type")) ∧
        ("type" ∉ found → "kind" ∈ found →
          all_schemas_share_a_field_ord f bs = .ok (some "kind")) ∧
        (found = [] → all_schemas_share_a_field_ord f bs = .ok none) ∧
        (∀ g : String, all_schemas_share_a_field_ord f bs = .ok (some g) →
          g ∈ found)) := by
  constructor
  · intro bs
    rfl
  · intro f hperm bs found hsc
    cases bs with
    | nil =>
        have hf : found = [] := by
          simp [sharedCandidates, branchFieldSets] at hsc
          exact hsc
        subst hf
        refine ⟨fun h => by simp at h, fun _ h => by simp at h, fun _ => rfl, ?_⟩
        intro g hg
        rw [show all_schemas_share_a_field_ord f [] = .ok none from rfl] at hg
        injection hg with hg2
        cases hg2
    | cons b rest =>
        cases hbf : branchFieldSets (b :: rest) with
        | panic => simp [sharedCandidates, hbf] at hsc
        | ok results =>
            obtain ⟨r0, rs, hres, -⟩ := branchFieldSets_shape hbf
            subst hres
            simp only [sharedCandidates, hbf] at hsc
            injection hsc with hfound
            have heq : all_schemas_share_a_field_ord f (b :: rest) =
                .ok (if found.contains "type" then some "type"
                     else if found.contains "kind" then some "kind"
                     else (f found).head?) := by
              simp only [all_schemas_share_a_field_ord, hbf]
              rw [hfound]
            refine ⟨?_, ?_, ?_, ?_⟩
            · intro hT
              rw [heq]
              simp [hT]
            · intro hnT hK
              rw [heq]
              simp [hnT, hK]
            · intro h0
              subst h0
              rw [heq]
              have : f [] = [] := (hperm []).eq_nil
              simp [this]
            · intro g hg
              rw [heq] at hg
              by_cases hT : found.contains "type"
              · rw [if_pos hT] at hg
                injection hg with hg2
                injection hg2 with hg3
                rw [← hg3]
                simpa using hT
              · rw [if_neg (by simpa using hT)] at hg
                by_cases hK : found.contains "kind"
                · rw [if_pos hK] at hg
                  injection hg with hg2
                  injection hg2 with hg3
                  rw [← hg3]
                  simpa using hK
                · rw [if_neg (by simpa using hK)] at hg
                  injection hg with hg2
                  have hmem : g ∈ f found := by
                    cases hff : f found with
                    | nil => rw [hff] at hg2; cases hg2
                    | cons x xs =>
                        rw [hff] at hg2
                        injection hg2 with hg3
                        rw [hg3]
                        simp
                  exact ((hperm found).mem_iff).mp hmem

/-- C5 witness: the order-generic theorem applied at the identity order and
a concrete branch list whose candidate set is `{a, b}`. -/
theorem discriminator_ord_behavior_witness :
    sharedCandidates [twoFieldBranch, twoFieldBranch] = .ok ["a", "b"] ∧
    (("type" ∈ ["a", "b"] →
       all_schemas_share_a_field_ord id [twoFieldBranch, twoFieldBranch] =
         .ok (some "type")) ∧
     ("type" ∉ ["a", "b"] → "kind" ∈ ["a", "b"] →
       all_schemas_share_a_field_ord id [twoFieldBranch, twoFieldBranch] =
         .ok (some "kind")) ∧
     ((["a", "b"] : List String) = [] →
       all_schemas_share_a_field_ord id [twoFieldBranch, twoFieldBranch] =
         .ok none) ∧
     (∀ g : String,
       all_schemas_share_a_field_ord id [twoFieldBranch, twoFieldBranch] =
         .ok (some g) → g ∈ ["a", "b"])) :=
  ⟨by decide, discriminator_ord_behavior.2 id (fun l => List.Perm.refl l)
    [twoFieldBranch, twoFieldBranch] ["a", "b"] (by decide)⟩

/-! ### Propagation lemmas (claims C7, C10, C2) -/

/-- Strict propagation in the property loop: one failing property makes the
whole loop fail, provided no earlier property panics. -/
theorem convert_properties_fail : ∀ (props : List (String × Schema)),
    (∀ p ∈ props, convert_schema_to_zod p.2 ≠ .panic) →
    (∃ p ∈ props, convert_schema_to_zod p.2 = .ok none) →
    convert_properties props = .ok none := by
  intro props
  induction props with
  | nil => rintro - ⟨p, hp, -⟩; cases hp
  | cons kv rest ih =>
      rintro hnp ⟨p, hp, hfail⟩
      obtain ⟨n0, s0⟩ := kv
      cases hc : convert_schema_to_zod s0 with
      | panic => exact absurd hc (hnp (n0, s0) (by simp))
      | ok r =>
          cases r with
          | none => rw [convert_properties_cons]; simp [hc]
          | some g =>
              have hrest : convert_properties rest = .ok none := by
                apply ih (fun q hq => hnp q (List.mem_cons_of_mem _ hq))
                rcases List.mem_cons.mp hp with h | h
                · subst h
                  rw [hc] at hfail
                  cases hfail
                · exact ⟨p, h, hfail⟩
              rw [convert_properties_cons]
              simp [hc, hrest]

/-- Strict propagation in the multi-category loop: one failing category
makes the whole loop fail, provided no earlier category panics. -/
theorem convert_union_branches_fail : ∀ (ts : List InstanceType) (s : SchemaObject),
    (∀ t ∈ ts, convert_single_instance_type_schema_to_zod t s ≠ .panic) →
    (∃ t ∈ ts, convert_single_instance_type_schema_to_zod t s = .ok none) →
    convert_union_branches ts s = .ok none := by
  intro ts s
  induction ts with
  | nil => rintro - ⟨t, ht, -⟩; cases ht
  | cons t0 rest ih =>
      rintro hnp ⟨t, ht, hfail⟩
      cases hc : convert_single_instance_type_schema_to_zod t0 s with
      | panic => exact absurd hc (hnp t0 (by simp))
      | ok r =>
          cases r with
          | none => rw [convert_union_branches_cons]; simp [hc]
          | some g =>
              have hrest : convert_union_branches rest s = .ok none := by
                apply ih (fun q hq => hnp q (List.mem_cons_of_mem _ hq))
                rcases List.mem_cons.mp ht with h | h
                · subst h
                  rw [hc] at hfail
                  cases hfail
                · exact ⟨t, h, hfail⟩
              rw [convert_union_branches_cons]
              simp [hc, hrest]

/-- Tolerant filtering: the filtered branch loop completes whenever no
branch panics (failing branches are simply skipped). -/
theorem filtered_ok_of_no_panic : ∀ {l : List Schema},
    (∀ b ∈ l, convert_schema_to_zod b ≠ .panic) →
    ∃ pieces, convert_filtered_branches l = .ok pieces := by
  intro l
  induction l with
  | nil => exact fun _ => ⟨"", convert_filtered_nil⟩
  | cons b rest ih =>
      intro hnp
      obtain ⟨pieces, hp⟩ := ih (fun q hq => hnp q (List.mem_cons_of_mem _ hq))
      cases hc : convert_schema_to_zod b with
      | panic => exact absurd hc (hnp b (by simp))
      | ok r =>
          cases r with
          | none => exact ⟨pieces, by rw [convert_filtered_cons]; simp [hc, hp]⟩
          | some g =>
              exact ⟨g ++ ", " ++ pieces, by rw [convert_filtered_cons]; simp [hc, hp]⟩

/-- When every branch fails to convert, the filtered loop yields the empty
concatenation. -/
theorem filtered_all_fail : ∀ {l : List Schema},
    (∀ b ∈ l, convert_schema_to_zod b = .ok none) →
    convert_filtered_branches l = .ok "" := by
  intro l
  induction l with
  | nil => exact fun _ => convert_filtered_nil
  | cons b rest ih =>
      intro hall
      have hb := hall b (by simp)
      have hrest := ih (fun q hq => hall q (List.mem_cons_of_mem _ hq))
      rw [convert_filtered_cons]
      simp [hb, hrest]

/-! ### Claim C7 -/

/-- C7: absence propagates strictly upward through object-property emission
and the multi-category union form (one unconvertible child, with no panic,
fails the whole parent), whereas in `oneOf` unions and in multi-item array
unions an unconvertible branch is filtered out and the parent still
succeeds. -/
theorem absence_propagation_policy :
    (∀ (ov : ObjectValidation) (s : SchemaObject),
       (∀ p ∈ ov.properties, convert_schema_to_zod p.2 ≠ .panic) →
       (∃ p ∈ ov.properties, convert_schema_to_zod p.2 = .ok none) →
       convert_object_type_to_zod ov s = .ok none) ∧
    (∀ (ts : List InstanceType) (s : SchemaObject),
       (∀ t ∈ ts, convert_single_instance_type_schema_to_zod t s ≠ .panic) →
       (∃ t ∈ ts, convert_single_instance_type_schema_to_zod t s = .ok none) →
       convert_union_type_schema_to_zod ts s = .ok none) ∧
    (∀ (s : SchemaObject) (l : List Schema),
       s.reference = none → s.enum_values = none →
       s.subschemas.bind SubschemaValidation.one_of = some l →
       all_schemas_share_a_field l ≠ .panic →
       (∀ b ∈ l, convert_schema_to_zod b ≠ .panic) →
       ∃ out, convert_schema_object_to_zod s = .ok (some out)) ∧
    (∀ (l : List Schema) (mode : String), l.length ≠ 1 →
       (∀ b ∈ l, convert_schema_to_zod b ≠ .panic) →
       ∃ out, convert_schema_or_ref_to_zod (.vec l) mode = .ok (some out)) ∧
    (∀ (b : Schema) (rest : List Schema), convert_schema_to_zod b = .ok none →
       convert_filtered_branches (b :: rest) = convert_filtered_branches rest) := by
  refine ⟨?_, ?_, ?_, ?_, ?_⟩
  · intro ov s hnp ⟨p, hp, hfail⟩
    have hne : ov.properties ≠ [] := by
      intro h0
      rw [h0] at hp
      cases hp
    have hguard : (ov.additional_properties.isSome && ov.properties.isEmpty) = false := by
      cases hpr : ov.properties with
      | nil => exact absurd hpr hne
      | cons a b => simp [hpr]
    rw [conv_object_props s hguard,
      convert_properties_fail ov.properties hnp ⟨p, hp, hfail⟩]
  · intro ts s hnp hex
    rw [conv_union_type, convert_union_branches_fail ts s hnp hex]
  · intro s l h1 h2 h3 haasaf hnp
    obtain ⟨pieces, hp⟩ := filtered_ok_of_no_panic hnp
    cases ha : all_schemas_share_a_field l with
    | panic => exact absurd ha haasaf
    | ok shared =>
        refine ⟨(match shared with
          | some field => "z.discriminatedUnion(" ++ tick ++ field ++ tick ++ ", ["
          | none => "z.union([") ++ pieces ++ "])", ?_⟩
        rw [conv_one_of h1 h2 h3]
        simp [ha, hp]
        cases shared <;> rfl
  · intro l mode hlen hnp
    obtain ⟨pieces, hp⟩ := filtered_ok_of_no_panic hnp
    refine ⟨"z." ++ mode ++ "([" ++ pieces ++ "])", ?_⟩
    rw [conv_or_ref_multi mode hlen]
    simp [hp]
  · intro b rest hfail
    rw [convert_filtered_cons]
    simp [hfail]

/-- A node none of whose classification rules applies: it converts to
absence (without panicking). -/
def failNode : Schema := .obj SchemaObject.default

theorem failNode_eval : convert_schema_to_zod failNode = .ok none := by
  rw [show failNode = .obj SchemaObject.default from rfl, conv_schema_obj,
    conv_no_instance (s := SchemaObject.default) rfl rfl rfl rfl]

/-- An array-typed payload with no `items`: its single-category conversion
fails without panicking. -/
def emptyArrObj : SchemaObject :=
  .mk none none none none none none none (some (.mk none none none)) none

theorem emptyArr_single_eval :
    convert_single_instance_type_schema_to_zod .array emptyArrObj = .ok none := by
  rw [conv_single_array (s := emptyArrObj) rfl rfl,
    @conv_array_no_items (ArrayValidation.mk none none none) emptyArrObj rfl]

/-- A `oneOf` node whose only branch is unconvertible. -/
def oneOfFailObj : SchemaObject :=
  .mk none none none none none (some (.mk (some [failNode]))) none none none

/-- C7 witness: each propagation rule applied at a concrete input. -/
theorem absence_propagation_policy_witness :
    convert_object_type_to_zod (.mk [("a", failNode)] none) SchemaObject.default =
      .ok none ∧
    convert_union_type_schema_to_zod [.array] emptyArrObj = .ok none ∧
    (∃ out, convert_schema_object_to_zod oneOfFailObj = .ok (some out)) ∧
    (∃ out, convert_schema_or_ref_to_zod (.vec [failNode, failNode]) "union" =
      .ok (some out)) ∧
    convert_filtered_branches (failNode :: []) = convert_filtered_branches [] := by
  refine ⟨?_, ?_, ?_, ?_, ?_⟩
  · exact absence_propagation_policy.1 (.mk [("a", failNode)] none) SchemaObject.default
      (by
        intro p hp
        simp only [ObjectValidation.properties, List.mem_singleton] at hp
        subst hp
        rw [failNode_eval]
        simp)
      ⟨("a", failNode), by simp, failNode_eval⟩
  · exact absence_propagation_policy.2.1 [.array] emptyArrObj
      (by
        intro t ht
        simp only [List.mem_singleton] at ht
        subst ht
        rw [emptyArr_single_eval]
        simp)
      ⟨.array, by simp, emptyArr_single_eval⟩
  · exact absence_propagation_policy.2.2.1 oneOfFailObj [failNode] rfl rfl rfl
      (by decide)
      (by
        intro b hb
        simp only [List.mem_singleton] at hb
        subst hb
        rw [failNode_eval]
        simp)
  · exact absence_propagation_policy.2.2.2.1 [failNode, failNode] "union"
      (by decide)
      (by
        intro b hb
        simp only [List.mem_cons, List.mem_singleton] at hb
        rcases hb with h | h | h <;> first
          | (subst h; rw [failNode_eval]; simp)
          | cases h)
  · exact absence_propagation_policy.2.2.2.2 failNode [] failNode_eval

/-! ### Claim C10 -/

/-- A `oneOf` node with a malformed branch (object-typed, payload absent):
discriminator inference `unwrap`s and panics, so conversion does not
succeed. -/
def oneOfBadObj : SchemaObject :=
  .mk none none none none none (some (.mk (some [.obj missPayloadObj]))) none none none

/-- C10, counterexample: conversion of a `oneOf` node does not always
succeed — with a branch whose object payload is missing, discriminator
inference panics and the whole conversion panics instead of producing a
union. -/
theorem one_of_panics_on_malformed_branch :
    convert_schema_object_to_zod oneOfBadObj = .panic := by
  rw [conv_one_of (s := oneOfBadObj) rfl rfl rfl]
  have h : all_schemas_share_a_field [.obj missPayloadObj] = .panic := by decide
  simp [h]

/-- C10, amended: for a `oneOf` node (no reference, no enum) whose branches
are well formed, conversion always succeeds with a union expression — even
when every branch fails to convert, in which case the union has zero
branches: the opening discriminated/plain union form directly followed by
`])`.  Absence is never returned for such a node. -/
theorem one_of_total_on_wellformed_branches (s : SchemaObject) (l : List Schema)
    (h1 : s.reference = none) (h2 : s.enum_values = none)
    (h3 : s.subschemas.bind SubschemaValidation.one_of = some l)
    (hwf : wfList l = true) :
    ∃ out, convert_schema_object_to_zod s = .ok (some out) ∧
      ((∀ b ∈ l, convert_schema_to_zod b = .ok none) →
        ∃ shared, all_schemas_share_a_field l = .ok shared ∧
          out = (match shared with
                 | some field => "z.discriminatedUnion(" ++ tick ++ field ++ tick ++ ", ["
                 | none => "z.union([") ++ "])") := by
  obtain ⟨shared, hsh⟩ := all_schemas_ok hwf
  obtain ⟨pieces, hp⟩ := filtered_ok hwf
  refine ⟨(match shared with
    | some field => "z.discriminatedUnion(" ++ tick ++ field ++ tick ++ ", ["
    | none => "z.union([") ++ pieces ++ "])", ?_, ?_⟩
  · rw [conv_one_of h1 h2 h3]
    simp [hsh, hp]
    cases shared <;> rfl
  · intro hfail
    have hp0 := filtered_all_fail hfail
    rw [hp] at hp0
    injection hp0 with hp1
    refine ⟨shared, hsh, ?_⟩
    subst hp1
    cases shared <;> simp

/-- A `oneOf` node with zero branches. -/
def oneOfEmptyObj : SchemaObject :=
  .mk none none none none none (some (.mk (some []))) none none none

/-- C10 witness: the amended theorem applied to the zero-branch `oneOf`
node. -/
theorem one_of_total_on_wellformed_branches_witness :
    ∃ out, convert_schema_object_to_zod oneOfEmptyObj = .ok (some out) ∧
      ((∀ b ∈ ([] : List Schema), convert_schema_to_zod b = .ok none) →
        ∃ shared, all_schemas_share_a_field [] = .ok shared ∧
          out = (match shared with
                 | some field => "z.discriminatedUnion(" ++ tick ++ field ++ tick ++ ", ["
                 | none => "z.union([") ++ "])") :=
  one_of_total_on_wellformed_branches oneOfEmptyObj [] rfl rfl rfl (by simp [wfList])

/-! ### Claim C2 -/

theorem numberObj_eval :
    convert_schema_object_to_zod numberObj = .ok (some "z.number()") := by
  rw [conv_instance (s := numberObj) rfl rfl rfl rfl, conv_type_single,
    conv_single_number (s := numberObj) rfl]

/-- The claim's concrete array node: `{instanceType: array, items:
{instanceType: number}, minItems: 2, maxItems: 2}`, with `items` carried as
a single schema, exactly as `schemars` produces it for a fixed-size array. -/
def tupleSingleObj : SchemaObject :=
  .mk none (some (.single .array)) none none none none none
    (some (.mk (some (.single (Schema.obj numberObj))) (some 2) (some 2))) none

/-- The same node with `minItems` absent. -/
def arrayNoMinObj : SchemaObject :=
  .mk none (some (.single .array)) none none none none none
    (some (.mk (some (.single (Schema.obj numberObj))) none (some 2))) none

theorem tupleSingleObj_eval :
    convert_schema_object_to_zod tupleSingleObj = .ok (some "z.number()") := by
  rw [conv_instance (s := tupleSingleObj) rfl rfl rfl rfl, conv_type_single,
    conv_single_array (s := tupleSingleObj) rfl rfl,
    @conv_array_tuple
      (ArrayValidation.mk (some (.single (Schema.obj numberObj))) (some 2) (some 2))
      (.single (Schema.obj numberObj)) tupleSingleObj rfl (by decide),
    conv_or_ref_single, conv_schema_obj, numberObj_eval]

/-- C2, counterexample: the node `{instanceType: array, items:
{instanceType: number}, minItems: 2, maxItems: 2}` does NOT convert to a
fixed-length-2 tuple expression.  Because its `items` payload is a single
schema, the shared helper converts it directly in "tuple" mode and the
whole node converts to plain `z.number()` — not even an array shape, and
not a `z.tuple(...)` expression. -/
theorem equal_bounds_single_item_no_tuple :
    convert_schema_object_to_zod tupleSingleObj = .ok (some "z.number()") ∧
    ("z.tuple".data.isPrefixOf "z.number()".data) = false :=
  ⟨tupleSingleObj_eval, by decide⟩

theorem arrayNoMinObj_eval :
    convert_schema_object_to_zod arrayNoMinObj = .ok (some "z.array(z.number())") := by
  rw [conv_instance (s := arrayNoMinObj) rfl rfl rfl rfl, conv_type_single,
    conv_single_array (s := arrayNoMinObj) rfl rfl,
    @conv_array_plain
      (ArrayValidation.mk (some (.single (Schema.obj numberObj))) none (some 2))
      (.single (Schema.obj numberObj)) arrayNoMinObj rfl (by decide),
    conv_or_ref_single, conv_schema_obj, numberObj_eval]
  rfl

/-- C2, amended: when the minimum and maximum length bounds are both
present and equal, conversion runs the item conversion in "tuple" mode, but
a `z.tuple([...])` expression only materializes when the `items` payload is
a sequence of two or more child nodes; a single item schema (as in the
claim's concrete node) is converted directly, so that node yields
`z.number()`, while the `minItems`-absent variant yields the homogeneous
`z.array(z.number())`. -/
theorem array_bounds_tuple_behavior :
    (∀ (av : ArrayValidation) (s : SchemaObject) (l : List Schema),
       av.items = some (.vec l) → 2 ≤ l.length →
       (av.min_items.isSome && av.min_items == av.max_items) = true →
       wfList l = true →
       ∃ body, convert_array_type_to_zod av s =
         .ok (some ("z.tuple([" ++ body ++ "])"))) ∧
    convert_schema_object_to_zod tupleSingleObj = .ok (some "z.number()") ∧
    convert_schema_object_to_zod arrayNoMinObj = .ok (some "z.array(z.number())") := by
  refine ⟨?_, tupleSingleObj_eval, arrayNoMinObj_eval⟩
  intro av s l hitems hlen hmin hwf
  obtain ⟨pieces, hp⟩ := filtered_ok hwf
  refine ⟨pieces, ?_⟩
  rw [@conv_array_tuple av (.vec l) s hitems hmin,
    conv_or_ref_multi "tuple" (by omega), hp]
  rfl

/-- A two-item positional tuple payload. -/
def tupleVecAv : ArrayValidation :=
  .mk (some (.vec [Schema.obj numberObj, Schema.obj numberObj])) (some 2) (some 2)

/-- C2 witness: the amended theorem applied to a two-item positional tuple
and the two concrete nodes. -/
theorem array_bounds_tuple_behavior_witness :
    (∃ body, convert_array_type_to_zod tupleVecAv SchemaObject.default =
      .ok (some ("z.tuple([" ++ body ++ "])"))) ∧
    convert_schema_object_to_zod tupleSingleObj = .ok (some "z.number()") ∧
    convert_schema_object_to_zod arrayNoMinObj = .ok (some "z.array(z.number())") :=
  ⟨array_bounds_tuple_behavior.1 tupleVecAv SchemaObject.default
      [Schema.obj numberObj, Schema.obj numberObj] rfl (by decide) (by decide)
      (by simp [wfList, wfS, wfO, numberObj, wfOptSub, wfOptObjV, wfOptArrV,
        mentionsType]),
    array_bounds_tuple_behavior.2.1, array_bounds_tuple_behavior.2.2⟩

end SchemarsZod
